import Mathlib

/-!
# Verification of the ink-hud rendering core

Shallow embedding of the pixel-canvas drawing primitives (`Renderer` base
class) and the three rasterizers (Braille, Block, ASCII) of the ink-hud
repository, together with proofs of the specification claims about them.

Conventions of the embedding:
* a canvas `Pixel[][]` is a `List (List Pixel)`; a pixel `{active, color?}`
  is a structure with a `Bool` and an `Option String`;
* a TypeScript `Partial<Pixel>` patch is a `Patch` whose fields are
  `Option`s (`none` = key absent), merged by `Object.assign` semantics;
* coordinates are `Int` (the claims restrict attention to integer
  coordinates, on which `Math.round` is the identity);
* the JavaScript `arr[i]` access that may yield `undefined` is `List.getElem?`;
* loops are structural recursion or folds over index ranges; the Bresenham
  `while (true)` loop is fuel-indexed and proved to never exhaust its fuel.
-/

/-- A pixel of the virtual canvas: `{ active: boolean; color?: string }`. -/
structure Pixel where
  active : Bool
  color : Option String
deriving DecidableEq, Repr

/-- A canvas `Pixel[][]` (row-major: outer list indexed by `y`). -/
abbrev Canvas := List (List Pixel)

/-- A `Partial<Pixel>` patch: a field that is `none` is an absent key. -/
structure Patch where
  active : Option Bool := none
  color : Option String := none
deriving DecidableEq, Repr

/-- The default patch `{ active: true }` used by all drawing primitives. -/
def defaultPatch : Patch := { active := some true }

/-- `Object.assign(current, patch)`: fields present in the patch overwrite,
fields absent in the patch are kept from the current pixel. -/
def mergePatch (p : Patch) (px : Pixel) : Pixel :=
  { active := p.active.getD px.active
    color := match p.color with
      | some c => some c
      | none => px.color }

/-- `createCanvas(width, height)`: a height×width grid of inactive pixels. -/
def createCanvas (width height : Nat) : Canvas :=
  List.replicate height (List.replicate width ⟨false, none⟩)

/-- The pixel stored at integer coordinates `(x, y)`, `none` when out of
bounds (models `canvas[y]?.[x]`). -/
def pixAt (cv : Canvas) (x y : Int) : Option Pixel :=
  if 0 ≤ x ∧ 0 ≤ y then (cv[y.toNat]?).bind (fun row => row[x.toNat]?) else none

/-- `Renderer.setPixel(canvas, x, y, pixel)`: merge the patch into the pixel
at `(x, y)` when the coordinates are in bounds, otherwise do nothing. -/
def setPixel (cv : Canvas) (x y : Int) (p : Patch) : Canvas :=
  if 0 ≤ x ∧ 0 ≤ y then
    match _h : cv[y.toNat]? with
    | none => cv
    | some row =>
        if x.toNat < row.length then
          cv.set y.toNat (row.set x.toNat (mergePatch p (row.getD x.toNat ⟨false, none⟩)))
        else cv
  else cv

/-- `pixels[y]?.[x]?.active ?? false`. -/
def activeAt (cv : Canvas) (x y : Int) : Bool :=
  ((pixAt cv x y).map Pixel.active).getD false

/-- The canvas is a `height`-row grid each of whose rows has `width` pixels. -/
def WellFormed (cv : Canvas) (width height : Nat) : Prop :=
  cv.length = height ∧ ∀ row ∈ cv, row.length = width

theorem setPixel_length (cv : Canvas) (x y : Int) (p : Patch) :
    (setPixel cv x y p).length = cv.length := by
  unfold setPixel
  split
  · split
    · rfl
    · split
      · exact List.length_set ..
      · rfl
  · rfl

theorem setPixel_row_length (cv : Canvas) (x y : Int) (p : Patch) (j : Nat) :
    ((setPixel cv x y p)[j]?).map List.length = (cv[j]?).map List.length := by
  unfold setPixel
  split
  · split
    · rfl
    · next row hrow =>
      split
      · rcases eq_or_ne j y.toNat with h | h
        · subst h
          rw [List.getElem?_set_self (by exact (List.getElem?_eq_some_iff.mp hrow).1)]
          rw [hrow]
          simp
        · rw [List.getElem?_set_ne (by omega)]
      · rfl
  · rfl

/-- Pointwise effect of `setPixel`: the target pixel (if it exists) becomes
the merge, every other position is untouched; an out-of-bounds target leaves
everything untouched. -/
theorem pixAt_setPixel (cv : Canvas) (x y : Int) (p : Patch) (i j : Int) :
    pixAt (setPixel cv x y p) i j =
      if i = x ∧ j = y then (pixAt cv x y).map (mergePatch p) else pixAt cv i j := by
  unfold setPixel
  split
  · next hxy =>
    split
    · next hrow =>
      -- target row does not exist: pixAt cv x y is none, both sides untouched
      split
      · next hij =>
        obtain ⟨hix, hjy⟩ := hij
        subst hix; subst hjy
        unfold pixAt
        rw [if_pos hxy, hrow]
        rfl
      · rfl
    · next row hrow =>
      split
      · next hxlt =>
        -- the set actually happens
        split
        · next hij =>
          obtain ⟨hix, hjy⟩ := hij
          rw [hix, hjy]
          unfold pixAt
          rw [if_pos hxy]
          rw [List.getElem?_set_self (by exact (List.getElem?_eq_some_iff.mp hrow).1)]
          rw [hrow]
          simp only [Option.some_bind, Option.map_bind]
          rw [List.getElem?_set_self hxlt]
          have : row[x.toNat]? = some (row.getD x.toNat ⟨false, none⟩) := by
            rw [List.getD_eq_getElem _ _ hxlt]
            exact List.getElem?_eq_getElem hxlt
          rw [this, if_pos hxy]
          rfl
        · next hij =>
          unfold pixAt
          by_cases hpos : 0 ≤ i ∧ 0 ≤ j
          · rw [if_pos hpos, if_pos hpos]
            rcases eq_or_ne j.toNat y.toNat with hj | hj
            · -- same row index; x must differ
              have hjy : j = y := by omega
              have hix : i ≠ x := fun h => hij ⟨h, hjy⟩
              rw [hj, List.getElem?_set_self (by exact (List.getElem?_eq_some_iff.mp hrow).1),
                hrow]
              simp only [Option.some_bind]
              rw [List.getElem?_set_ne (by omega)]
            · rw [List.getElem?_set_ne (fun h => hj h.symm)]
          · rw [if_neg hpos, if_neg hpos]
      · next hxge =>
        -- x beyond the row: pixAt cv x y is none
        split
        · next hij =>
          obtain ⟨hix, hjy⟩ := hij
          subst hix; subst hjy
          unfold pixAt
          rw [if_pos hxy, hrow]
          simp only [Option.some_bind]
          rw [List.getElem?_eq_none (by omega)]
          rfl
        · rfl
  · next hxy =>
    split
    · next hij =>
      obtain ⟨hix, hjy⟩ := hij
      subst hix; subst hjy
      unfold pixAt
      rw [if_neg hxy]
      rfl
    · rfl

/-- Two canvases of the same shape with the same pixels are equal. -/
theorem canvas_ext {c₁ c₂ : Canvas} (hlen : c₁.length = c₂.length)
    (hrow : ∀ j : Nat, (c₁[j]?).map List.length = (c₂[j]?).map List.length)
    (hpix : ∀ i j : Int, pixAt c₁ i j = pixAt c₂ i j) : c₁ = c₂ := by
  apply List.ext_getElem?
  intro j
  rcases h1 : c₁[j]? with _ | row₁
  · have : c₂.length ≤ j := by
      have := List.getElem?_eq_none_iff.mp h1
      omega
    rw [List.getElem?_eq_none this]
  · rcases h2 : c₂[j]? with _ | row₂
    · have h1' : c₁.length ≤ j := by
        have := List.getElem?_eq_none_iff.mp h2
        omega
      rw [List.getElem?_eq_none h1'] at h1
      exact absurd h1 (by simp)
    · have hlen12 : row₁.length = row₂.length := by
        have := hrow j
        rw [h1, h2] at this
        simpa using this
      congr 1
      apply List.ext_getElem?
      intro i
      rcases Nat.lt_or_ge i row₁.length with hi | hi
      · have := hpix i j
        unfold pixAt at this
        rw [if_pos ⟨Int.ofNat_nonneg i, Int.ofNat_nonneg j⟩] at this
        simp only [Int.toNat_ofNat] at this
        rw [h1, h2] at this
        simpa using this
      · rw [List.getElem?_eq_none hi, List.getElem?_eq_none (by omega)]

theorem mergePatch_idem (p : Patch) (px : Pixel) :
    mergePatch p (mergePatch p px) = mergePatch p px := by
  unfold mergePatch
  cases p.active <;> cases p.color <;> rfl

theorem setPixel_shape_row (cv : Canvas) (x y : Int) (p : Patch) (j : Nat) :
    ((setPixel cv x y p)[j]?).map List.length = (cv[j]?).map List.length :=
  setPixel_row_length cv x y p j

/-- Two `setPixel`s with the same patch can be reordered. -/
theorem setPixel_left_comm (cv : Canvas) (x₁ y₁ x₂ y₂ : Int) (p : Patch) :
    setPixel (setPixel cv x₁ y₁ p) x₂ y₂ p = setPixel (setPixel cv x₂ y₂ p) x₁ y₁ p := by
  apply canvas_ext
  · rw [setPixel_length, setPixel_length, setPixel_length, setPixel_length]
  · intro j
    rw [setPixel_row_length, setPixel_row_length, setPixel_row_length, setPixel_row_length]
  · intro i j
    by_cases h2 : i = x₂ ∧ j = y₂
    · obtain ⟨h2a, h2b⟩ := h2
      subst h2a; subst h2b
      by_cases h1 : i = x₁ ∧ j = y₁
      · obtain ⟨h1a, h1b⟩ := h1
        subst h1a; subst h1b
        rfl
      · simp [pixAt_setPixel, h1]
    · by_cases h1 : i = x₁ ∧ j = y₁
      · obtain ⟨h1a, h1b⟩ := h1
        subst h1a; subst h1b
        simp [pixAt_setPixel, h2]
      · simp [pixAt_setPixel, h1, h2]

theorem setPixel_idem (cv : Canvas) (x y : Int) (p : Patch) :
    setPixel (setPixel cv x y p) x y p = setPixel cv x y p := by
  apply canvas_ext
  · rw [setPixel_length, setPixel_length]
  · intro j
    rw [setPixel_row_length, setPixel_row_length]
  · intro i j
    rw [pixAt_setPixel, pixAt_setPixel, pixAt_setPixel]
    by_cases h : i = x ∧ j = y
    · rw [if_pos h, if_pos h, if_pos ⟨rfl, rfl⟩]
      rcases pixAt cv x y with _ | px
      · rfl
      · simp [mergePatch_idem]
    · rw [if_neg h, if_neg h]

/-!
## `Renderer.drawLine` (Bresenham)

The loop body of the `while (true)` in `drawLine` is modelled by a
fuel-indexed recursion `drawLineGo`; `drawLine` supplies `dx + dy + 1` fuel,
which theorem `drawLine_total` (claim C10) shows is always enough, so the
`none` (fuel ran out) case never occurs.
-/

/-- One `while (true)` iteration after another: plot, test the exit
condition, update `(x, y, err)` by the shared `e2 = 2*err` comparisons. -/
def drawLineGo (p : Patch) (dx dy : Nat) (sx sy endX endY : Int) :
    Nat → Canvas → Int → Int → Int → Option Canvas
  | 0, _, _, _, _ => none
  | fuel + 1, cv, x, y, err =>
      let cv' := setPixel cv x y p
      if x = endX ∧ y = endY then some cv'
      else
        let e2 := 2 * err
        let err₁ : Int := if e2 > -(dy : Int) then err - dy else err
        let x₁ : Int := if e2 > -(dy : Int) then x + sx else x
        let err₂ : Int := if e2 < (dx : Int) then err₁ + dx else err₁
        let y₁ : Int := if e2 < (dx : Int) then y + sy else y
        drawLineGo p dx dy sx sy endX endY fuel cv' x₁ y₁ err₂

/-- `Renderer.drawLine(canvas, x0, y0, x1, y1, pixel)` for integer
endpoints (`Math.round` is the identity there). -/
def drawLine (cv : Canvas) (x0 y0 x1 y1 : Int) (p : Patch) : Option Canvas :=
  let dx := (x1 - x0).natAbs
  let dy := (y1 - y0).natAbs
  let sx : Int := if x0 < x1 then 1 else -1
  let sy : Int := if y0 < y1 then 1 else -1
  drawLineGo p dx dy sx sy x1 y1 (dx + dy + 1) cv x0 y0 ((dx : Int) - (dy : Int))

/-- One-step unfolding of the Bresenham loop. -/
theorem drawLineGo_succ (p : Patch) (dx dy : Nat) (sx sy endX endY : Int)
    (fuel : Nat) (cv : Canvas) (x y err : Int) :
    drawLineGo p dx dy sx sy endX endY (fuel + 1) cv x y err =
      if x = endX ∧ y = endY then some (setPixel cv x y p)
      else
        drawLineGo p dx dy sx sy endX endY fuel (setPixel cv x y p)
          (if 2 * err > -(dy : Int) then x + sx else x)
          (if 2 * err < (dx : Int) then y + sy else y)
          (if 2 * err < (dx : Int)
            then (if 2 * err > -(dy : Int) then err - dy else err) + dx
            else (if 2 * err > -(dy : Int) then err - dy else err)) := by
  rfl

/-- Invariant-carrying totality of the Bresenham loop: with `a` x-steps and
`b` y-steps already taken, fuel `(dx - a) + (dy - b) + 1` suffices. -/
theorem drawLineGo_isSome (p : Patch) (x1 y1 sx sy : Int) (dx dy : Nat)
    (hsxpm : sx = 1 ∨ sx = -1) (hsypm : sy = 1 ∨ sy = -1) :
    ∀ n a b (cv : Canvas) (x y : Int),
      a ≤ dx → b ≤ dy → (dx - a) + (dy - b) ≤ n →
      x + sx * ((dx : Int) - a) = x1 →
      y + sy * ((dy : Int) - b) = y1 →
      (drawLineGo p dx dy sx sy x1 y1 (n + 1) cv x y
        ((dx : Int) * (1 + b) - (dy : Int) * (1 + a))).isSome = true := by
  intro n
  induction n with
  | zero =>
    intro a b cv x y ha hb hn hx hy
    have hadx : a = dx := by omega
    have hbdy : b = dy := by omega
    have hxe : x = x1 := by
      rcases hsxpm with h | h <;> subst h <;> omega
    have hye : y = y1 := by
      rcases hsypm with h | h <;> subst h <;> omega
    rw [drawLineGo_succ, if_pos ⟨hxe, hye⟩]
    rfl
  | succ n ih =>
    intro a b cv x y ha hb hn hx hy
    rw [drawLineGo_succ]
    by_cases hend : x = x1 ∧ y = y1
    · rw [if_pos hend]; rfl
    · rw [if_neg hend]
      -- not at the endpoint yet, so not all steps are taken
      have habd : ¬(a = dx ∧ b = dy) := by
        rintro ⟨rfl, rfl⟩
        apply hend
        constructor
        · rcases hsxpm with h | h <;> subst h <;> omega
        · rcases hsypm with h | h <;> subst h <;> omega
      set err : Int := (dx : Int) * (1 + b) - (dy : Int) * (1 + a) with herr
      by_cases hX : 2 * err > -(dy : Int) <;> by_cases hY : 2 * err < (dx : Int)
      · -- both coordinates step
        rw [if_pos hX, if_pos hY, if_pos hY, if_pos hX]
        have hax : a < dx := by
          by_contra hc
          have hadx : a = dx := by omega
          have hbdy : b < dy := by omega
          have h1 : (1 + (b : Int)) ≤ (dy : Int) := by omega
          have h2 : (0 : Int) ≤ 2 * (dx : Int) := by positivity
          subst hadx
          nlinarith [mul_le_mul_of_nonneg_left h1 h2]
        have hby : b < dy := by
          by_contra hc
          have hbdy : b = dy := by omega
          have hadx : a < dx := by omega
          have h1 : (1 + (a : Int)) ≤ (dx : Int) := by omega
          have h2 : (0 : Int) ≤ 2 * (dy : Int) := by positivity
          subst hbdy
          nlinarith [mul_le_mul_of_nonneg_left h1 h2]
        have hE : err - (dy : Int) + (dx : Int) =
            (dx : Int) * (1 + (b + 1 : Nat)) - (dy : Int) * (1 + (a + 1 : Nat)) := by
          rw [herr]; push_cast; ring
        rw [hE]
        apply ih (a + 1) (b + 1) _ _ _ (by omega) (by omega) (by omega)
        · rcases hsxpm with h | h <;> subst h <;> omega
        · rcases hsypm with h | h <;> subst h <;> omega
      · -- only x steps
        rw [if_pos hX, if_neg hY, if_neg hY, if_pos hX]
        have hax : a < dx := by
          by_contra hc
          have hadx : a = dx := by omega
          have hbdy : b < dy := by omega
          have h1 : (1 + (b : Int)) ≤ (dy : Int) := by omega
          have h2 : (0 : Int) ≤ 2 * (dx : Int) := by positivity
          subst hadx
          nlinarith [mul_le_mul_of_nonneg_left h1 h2]
        have hE : err - (dy : Int) =
            (dx : Int) * (1 + (b : Nat)) - (dy : Int) * (1 + (a + 1 : Nat)) := by
          rw [herr]; push_cast; ring
        rw [hE]
        apply ih (a + 1) b _ _ _ (by omega) (by omega) (by omega)
        · rcases hsxpm with h | h <;> subst h <;> omega
        · exact hy
      · -- only y steps
        rw [if_neg hX, if_pos hY, if_pos hY, if_neg hX]
        have hby : b < dy := by
          by_contra hc
          have hbdy : b = dy := by omega
          have hadx : a < dx := by omega
          have h1 : (1 + (a : Int)) ≤ (dx : Int) := by omega
          have h2 : (0 : Int) ≤ 2 * (dy : Int) := by positivity
          subst hbdy
          nlinarith [mul_le_mul_of_nonneg_left h1 h2]
        have hE : err + (dx : Int) =
            (dx : Int) * (1 + (b + 1 : Nat)) - (dy : Int) * (1 + (a : Nat)) := by
          rw [herr]; push_cast; ring
        rw [hE]
        apply ih a (b + 1) _ _ _ (by omega) (by omega) (by omega)
        · exact hx
        · rcases hsypm with h | h <;> subst h <;> omega
      · -- impossible: no step at all
        exfalso
        have h1 : 2 * err ≤ -(dy : Int) := by omega
        have h2 : (dx : Int) ≤ 2 * err := by omega
        have hdx0 : dx = 0 := by omega
        have hdy0 : dy = 0 := by omega
        exact habd ⟨by omega, by omega⟩

/-- `drawLine` always produces a canvas: the loop exits before the fuel
`dx + dy + 1` runs out. -/
theorem drawLine_total (cv : Canvas) (x0 y0 x1 y1 : Int) (p : Patch) :
    (drawLine cv x0 y0 x1 y1 p).isSome = true := by
  have h := drawLineGo_isSome p x1 y1 (if x0 < x1 then 1 else -1) (if y0 < y1 then 1 else -1)
      (x1 - x0).natAbs (y1 - y0).natAbs (by split <;> simp) (by split <;> simp)
      ((x1 - x0).natAbs + (y1 - y0).natAbs) 0 0 cv x0 y0 (by omega) (by omega) (by omega)
      (by split <;> omega) (by split <;> omega)
  have he : ((x1 - x0).natAbs : Int) * (1 + (0 : Nat)) -
      ((y1 - y0).natAbs : Int) * (1 + (0 : Nat)) =
      ((x1 - x0).natAbs : Int) - ((y1 - y0).natAbs : Int) := by push_cast; ring
  rw [he] at h
  exact h

/-- The canvas after plotting `k + 1` points starting at `(x, y)` and
stepping by `(sx, sy)` each time. -/
def plotRun (p : Patch) (sx sy : Int) : Canvas → Int → Int → Nat → Canvas
  | cv, x, y, 0 => setPixel cv x y p
  | cv, x, y, k + 1 => plotRun p sx sy (setPixel cv x y p) (x + sx) (y + sy) k

theorem plotRun_snoc (p : Patch) (sx sy : Int) :
    ∀ (k : Nat) (cv : Canvas) (x y : Int),
      plotRun p sx sy cv x y (k + 1) =
        setPixel (plotRun p sx sy cv x y k) (x + sx * (k + 1)) (y + sy * (k + 1)) p := by
  intro k
  induction k with
  | zero =>
    intro cv x y
    show setPixel (setPixel cv x y p) (x + sx) (y + sy) p = _
    rw [show x + sx * ((0 : Nat) + 1) = x + sx by push_cast; ring,
      show y + sy * ((0 : Nat) + 1) = y + sy by push_cast; ring]
    rfl
  | succ k ih =>
    intro cv x y
    show plotRun p sx sy (setPixel cv x y p) (x + sx) (y + sy) (k + 1) = _
    rw [ih]
    rw [show x + sx + sx * (k + 1) = x + sx * ((k : Int) + 1 + 1) by ring,
      show y + sy + sy * (k + 1) = y + sy * ((k : Int) + 1 + 1) by ring]
    have hx : ((k + 1 + 1 : Nat) : Int) = (k : Int) + 1 + 1 := by push_cast; ring
    rw [← hx]
    rfl

theorem plotRun_setPixel_comm (p : Patch) (sx sy : Int) :
    ∀ (k : Nat) (cv : Canvas) (x y a b : Int),
      setPixel (plotRun p sx sy cv x y k) a b p =
        plotRun p sx sy (setPixel cv a b p) x y k := by
  intro k
  induction k with
  | zero =>
    intro cv x y a b
    exact setPixel_left_comm ..
  | succ k ih =>
    intro cv x y a b
    show setPixel (plotRun p sx sy (setPixel cv x y p) (x + sx) (y + sy) k) a b p = _
    rw [ih, setPixel_left_comm]
    rfl

/-- A run of plotted points can be traversed from either end. -/
theorem plotRun_reverse (p : Patch) (sx sy : Int) :
    ∀ (k : Nat) (cv : Canvas) (x y : Int),
      plotRun p sx sy cv x y k =
        plotRun p (-sx) (-sy) cv (x + sx * k) (y + sy * k) k := by
  intro k
  induction k with
  | zero =>
    intro cv x y
    simp [plotRun]
  | succ k ih =>
    intro cv x y
    rw [plotRun_snoc]
    have h1 : plotRun p (-sx) (-sy) cv (x + sx * (k + 1)) (y + sy * (k + 1)) (k + 1) =
        plotRun p (-sx) (-sy) (setPixel cv (x + sx * (k + 1)) (y + sy * (k + 1)) p)
          (x + sx * k) (y + sy * k) k := by
      show plotRun p (-sx) (-sy) (setPixel cv _ _ p)
          (x + sx * ((k : Int) + 1) + -sx) (y + sy * ((k : Int) + 1) + -sy) k = _
      rw [show x + sx * ((k : Int) + 1) + -sx = x + sx * k by ring,
        show y + sy * ((k : Int) + 1) + -sy = y + sy * k by ring]
    rw [show ((k + 1 : Nat) : Int) = (k : Int) + 1 by push_cast; ring, h1, ← ih,
      plotRun_setPixel_comm]

/-- On horizontal, vertical and exactly diagonal segments the Bresenham
error term stays constant and the loop plots a uniform run of points. -/
theorem drawLineGo_run (p : Patch) (x1 y1 sx sy : Int) (dx dy : Nat)
    (hsxpm : sx = 1 ∨ sx = -1) (hsypm : sy = 1 ∨ sy = -1)
    (hclass : dx = 0 ∨ dy = 0 ∨ dx = dy) :
    ∀ (k fuel : Nat) (cv : Canvas) (x y : Int), k ≤ max dx dy → k + 1 ≤ fuel →
      x = x1 - (if 2 * dx > dy then sx else 0) * k →
      y = y1 - (if dx < 2 * dy then sy else 0) * k →
      drawLineGo p dx dy sx sy x1 y1 fuel cv x y ((dx : Int) - (dy : Int)) =
        some (plotRun p (if 2 * dx > dy then sx else 0) (if dx < 2 * dy then sy else 0)
          cv x y k) := by
  intro k
  induction k with
  | zero =>
    intro fuel cv x y hk hfuel hx hy
    obtain ⟨m, rfl⟩ : ∃ m, fuel = m + 1 := ⟨fuel - 1, by omega⟩
    have hxe : x = x1 := by rw [hx]; ring
    have hye : y = y1 := by rw [hy]; ring
    rw [drawLineGo_succ, if_pos ⟨hxe, hye⟩]
    rfl
  | succ k ih =>
    intro fuel cv x y hk hfuel hx hy
    obtain ⟨m, rfl⟩ : ∃ m, fuel = m + 1 := ⟨fuel - 1, by omega⟩
    have hone : 0 < max dx dy := by omega
    -- not yet at the endpoint: the still-moving coordinate differs from its target
    have hend : ¬(x = x1 ∧ y = y1) := by
      rintro ⟨hxe, hye⟩
      by_cases hu : 2 * dx > dy
      · have hsnz : sx ≠ 0 := by rcases hsxpm with h | h <;> simp [h]
        rw [if_pos hu] at hx
        have : sx * (k + 1 : Nat) = 0 := by omega
        rcases hsxpm with h | h <;> rw [h] at this <;> omega
      · have hv : dx < 2 * dy := by
          rcases hclass with h | h | h <;> omega
        rw [if_pos hv] at hy
        have : sy * (k + 1 : Nat) = 0 := by omega
        rcases hsypm with h | h <;> rw [h] at this <;> omega
    rw [drawLineGo_succ, if_neg hend]
    -- the error term is constant on these segment classes
    by_cases hu : 2 * dx > dy <;> by_cases hv : dx < 2 * dy
    · -- both step (dx = dy > 0)
      have hdd : dx = dy := by rcases hclass with h | h | h <;> omega
      have hXc : 2 * ((dx : Int) - (dy : Int)) > -(dy : Int) := by omega
      have hYc : 2 * ((dx : Int) - (dy : Int)) < (dx : Int) := by omega
      rw [if_pos hXc, if_pos hYc, if_pos hYc, if_pos hXc]
      rw [show (dx : Int) - (dy : Int) - (dy : Int) + (dx : Int) = (dx : Int) - (dy : Int) by
        omega]
      have hgoal := ih m (setPixel cv x y p) (x + sx) (y + sy) (by omega) (by omega)
        (by rw [hx, if_pos hu]; push_cast; ring)
        (by rw [hy, if_pos hv]; push_cast; ring)
      rw [hgoal]
      congr 1
      show plotRun _ _ _ (setPixel cv x y p) _ _ k = plotRun _ _ _ (setPixel cv x y p) _ _ k
      rw [if_pos hu, if_pos hv]
    · -- only x steps (dy = 0)
      have hdy0 : dy = 0 := by rcases hclass with h | h | h <;> omega
      have hXc : 2 * ((dx : Int) - (dy : Int)) > -(dy : Int) := by omega
      have hYc : ¬(2 * ((dx : Int) - (dy : Int)) < (dx : Int)) := by omega
      rw [if_pos hXc, if_neg hYc, if_neg hYc, if_pos hXc]
      rw [show (dx : Int) - (dy : Int) - (dy : Int) = (dx : Int) - (dy : Int) by omega]
      have hgoal := ih m (setPixel cv x y p) (x + sx) y (by omega) (by omega)
        (by rw [hx, if_pos hu]; push_cast; ring)
        (by rw [hy, if_neg hv]; push_cast; ring)
      rw [hgoal]
      congr 1
      show plotRun _ _ _ (setPixel cv x y p) _ _ k = plotRun _ _ _ (setPixel cv x y p) _ _ k
      rw [if_pos hu, if_neg hv, add_zero]
    · -- only y steps (dx = 0)
      have hdx0 : dx = 0 := by rcases hclass with h | h | h <;> omega
      have hXc : ¬(2 * ((dx : Int) - (dy : Int)) > -(dy : Int)) := by omega
      have hYc : 2 * ((dx : Int) - (dy : Int)) < (dx : Int) := by omega
      rw [if_neg hXc, if_pos hYc, if_pos hYc, if_neg hXc]
      rw [show (dx : Int) - (dy : Int) + (dx : Int) = (dx : Int) - (dy : Int) by omega]
      have hgoal := ih m (setPixel cv x y p) x (y + sy) (by omega) (by omega)
        (by rw [hx, if_neg hu]; push_cast; ring)
        (by rw [hy, if_pos hv]; push_cast; ring)
      rw [hgoal]
      congr 1
      show plotRun _ _ _ (setPixel cv x y p) _ _ k = plotRun _ _ _ (setPixel cv x y p) _ _ k
      rw [if_neg hu, if_pos hv, add_zero]
    · -- no step at all is impossible here
      exfalso
      omega

theorem run_endpoint_x (x0 x1 y0 y1 : Int)
    (hclass : x0 = x1 ∨ y0 = y1 ∨ (x1 - x0).natAbs = (y1 - y0).natAbs) :
    x0 + (if 2 * (x1 - x0).natAbs > (y1 - y0).natAbs then (if x0 < x1 then (1 : Int) else -1)
        else 0) * (max (x1 - x0).natAbs (y1 - y0).natAbs : Nat) = x1 := by
  by_cases hu : 2 * (x1 - x0).natAbs > (y1 - y0).natAbs
  · rw [if_pos hu]
    have hd : max (x1 - x0).natAbs (y1 - y0).natAbs = (x1 - x0).natAbs := by
      rcases hclass with h | h | h <;> omega
    rw [hd]
    split <;> omega
  · rw [if_neg hu]
    have : x0 = x1 := by rcases hclass with h | h | h <;> omega
    omega

theorem run_endpoint_y (x0 x1 y0 y1 : Int)
    (hclass : x0 = x1 ∨ y0 = y1 ∨ (x1 - x0).natAbs = (y1 - y0).natAbs) :
    y0 + (if (x1 - x0).natAbs < 2 * (y1 - y0).natAbs then (if y0 < y1 then (1 : Int) else -1)
        else 0) * (max (x1 - x0).natAbs (y1 - y0).natAbs : Nat) = y1 := by
  by_cases hv : (x1 - x0).natAbs < 2 * (y1 - y0).natAbs
  · rw [if_pos hv]
    have hd : max (x1 - x0).natAbs (y1 - y0).natAbs = (y1 - y0).natAbs := by
      rcases hclass with h | h | h <;> omega
    rw [hd]
    split <;> omega
  · rw [if_neg hv]
    have : y0 = y1 := by rcases hclass with h | h | h <;> omega
    omega

/-- On the three symmetric segment classes, `drawLine` is the uniform run of
`max dx dy + 1` plotted points. -/
theorem drawLine_run (cv : Canvas) (x0 y0 x1 y1 : Int) (p : Patch)
    (hclass : x0 = x1 ∨ y0 = y1 ∨ (x1 - x0).natAbs = (y1 - y0).natAbs) :
    drawLine cv x0 y0 x1 y1 p =
      some (plotRun p
        (if 2 * (x1 - x0).natAbs > (y1 - y0).natAbs then (if x0 < x1 then (1 : Int) else -1)
          else 0)
        (if (x1 - x0).natAbs < 2 * (y1 - y0).natAbs then (if y0 < y1 then (1 : Int) else -1)
          else 0)
        cv x0 y0 (max (x1 - x0).natAbs (y1 - y0).natAbs)) := by
  have hclass' : (x1 - x0).natAbs = 0 ∨ (y1 - y0).natAbs = 0 ∨
      (x1 - x0).natAbs = (y1 - y0).natAbs := by
    rcases hclass with h | h | h
    · left; omega
    · right; left; omega
    · right; right; exact h
  have hx : x0 = x1 - (if 2 * (x1 - x0).natAbs > (y1 - y0).natAbs
      then (if x0 < x1 then (1 : Int) else -1) else 0) *
      (max (x1 - x0).natAbs (y1 - y0).natAbs : Nat) := by
    have := run_endpoint_x x0 x1 y0 y1 hclass
    omega
  have hy : y0 = y1 - (if (x1 - x0).natAbs < 2 * (y1 - y0).natAbs
      then (if y0 < y1 then (1 : Int) else -1) else 0) *
      (max (x1 - x0).natAbs (y1 - y0).natAbs : Nat) := by
    have := run_endpoint_y x0 x1 y0 y1 hclass
    omega
  exact drawLineGo_run p x1 y1 (if x0 < x1 then (1 : Int) else -1)
    (if y0 < y1 then (1 : Int) else -1) (x1 - x0).natAbs (y1 - y0).natAbs
    (by split <;> simp) (by split <;> simp) hclass'
    (max (x1 - x0).natAbs (y1 - y0).natAbs)
    ((x1 - x0).natAbs + (y1 - y0).natAbs + 1) cv x0 y0 (le_refl _) (by omega) hx hy

/-- C2 (amended): on a horizontal, vertical, or exactly diagonal segment,
`drawLine` sets the same pixels in both directions; in general the two
directions may differ at tie-breaking steps of the error loop. -/
theorem claimC2_drawLine_symm (cv : Canvas) (x0 y0 x1 y1 : Int) (p : Patch)
    (h : x0 = x1 ∨ y0 = y1 ∨ (x1 - x0).natAbs = (y1 - y0).natAbs) :
    drawLine cv x0 y0 x1 y1 p = drawLine cv x1 y1 x0 y0 p := by
  have h' : x1 = x0 ∨ y1 = y0 ∨ (x0 - x1).natAbs = (y0 - y1).natAbs := by
    rcases h with a | a | a
    · left; omega
    · right; left; omega
    · right; right; omega
  rw [drawLine_run cv x0 y0 x1 y1 p h, drawLine_run cv x1 y1 x0 y0 p h']
  have e1 : (x0 - x1).natAbs = (x1 - x0).natAbs := by omega
  have e2 : (y0 - y1).natAbs = (y1 - y0).natAbs := by omega
  rw [e1, e2]
  congr 1
  rw [plotRun_reverse, run_endpoint_x x0 x1 y0 y1 h, run_endpoint_y x0 x1 y0 y1 h]
  have hu' : -(if 2 * (x1 - x0).natAbs > (y1 - y0).natAbs
      then (if x0 < x1 then (1 : Int) else -1) else 0) =
      (if 2 * (x1 - x0).natAbs > (y1 - y0).natAbs
      then (if x1 < x0 then (1 : Int) else -1) else 0) := by
    by_cases hu : 2 * (x1 - x0).natAbs > (y1 - y0).natAbs
    · rw [if_pos hu, if_pos hu]
      by_cases hlt : x0 < x1
      · rw [if_pos hlt, if_neg (by omega)]
      · rw [if_neg hlt, if_pos (by omega)]
        norm_num
    · rw [if_neg hu, if_neg hu]
      norm_num
  have hv' : -(if (x1 - x0).natAbs < 2 * (y1 - y0).natAbs
      then (if y0 < y1 then (1 : Int) else -1) else 0) =
      (if (x1 - x0).natAbs < 2 * (y1 - y0).natAbs
      then (if y1 < y0 then (1 : Int) else -1) else 0) := by
    by_cases hv : (x1 - x0).natAbs < 2 * (y1 - y0).natAbs
    · rw [if_pos hv, if_pos hv]
      by_cases hlt : y0 < y1
      · rw [if_pos hlt, if_neg (by omega)]
      · rw [if_neg hlt, if_pos (by omega)]
        norm_num
    · rw [if_neg hv, if_neg hv]
      norm_num
  rw [hu', hv']

/-- C2 counterexample: drawing the segment between `(0,0)` and `(4,2)` on two
fresh 5×3 canvases, once in each direction, produces different canvases (the
forward direction sets `(1,0)` and `(3,1)`, the reverse `(1,1)` and `(3,2)`),
so `drawLine` is not symmetric as claimed. -/
theorem claimC2_counterexample :
    drawLine (createCanvas 5 3) 0 0 4 2 defaultPatch ≠
      drawLine (createCanvas 5 3) 4 2 0 0 defaultPatch := by decide

/-- Witness for C2: the amended symmetry theorem applied to the horizontal
segment from `(0,0)` to `(4,0)` on a 5×1 canvas. -/
theorem claimC2_drawLine_symm_witness :
    ((0 : Int) = 4 ∨ (0 : Int) = 0 ∨ ((4 : Int) - 0).natAbs = ((0 : Int) - 0).natAbs) ∧
      drawLine (createCanvas 5 1) 0 0 4 0 defaultPatch =
        drawLine (createCanvas 5 1) 4 0 0 0 defaultPatch :=
  ⟨by norm_num,
    claimC2_drawLine_symm (createCanvas 5 1) 0 0 4 0 defaultPatch (by norm_num)⟩

/-- C10: for every canvas, integer endpoints and patch, the Bresenham
stepping loop of `drawLine` reaches `(endX, endY)` after finitely many
iterations (within fuel `dx + dy + 1`), so `drawLine` always yields a
canvas: it is a total function on integer endpoints. -/
theorem claimC10_drawLine_total (cv : Canvas) (x0 y0 x1 y1 : Int) (p : Patch) :
    ∃ cv' : Canvas, drawLine cv x0 y0 x1 y1 p = some cv' := by
  have h := drawLine_total cv x0 y0 x1 y1 p
  exact Option.isSome_iff_exists.mp h

/-- C7: on a `width`×`height` canvas, `setPixel` at in-bounds `(x, y)`
merges the patch into the existing pixel — a field absent from the patch
keeps its old value, a present field overwrites (so a later call can flip
`active` back to `false` or change only `color`) — and leaves every other
pixel unchanged; out-of-bounds coordinates leave the whole canvas
unchanged. -/
theorem claimC7_setPixel (cv : Canvas) (w h : Nat) (x y : Int) (p : Patch)
    (hwf : WellFormed cv w h) :
    ((0 ≤ x ∧ x < w ∧ 0 ≤ y ∧ y < h) →
      pixAt (setPixel cv x y p) x y = (pixAt cv x y).map (mergePatch p) ∧
      (∀ px : Pixel,
        (p.active = none → (mergePatch p px).active = px.active) ∧
        (p.color = none → (mergePatch p px).color = px.color) ∧
        (∀ b, p.active = some b → (mergePatch p px).active = b) ∧
        (∀ s, p.color = some s → (mergePatch p px).color = some s)) ∧
      (∀ i j : Int, ¬(i = x ∧ j = y) → pixAt (setPixel cv x y p) i j = pixAt cv i j)) ∧
    (¬(0 ≤ x ∧ x < w ∧ 0 ≤ y ∧ y < h) → setPixel cv x y p = cv) := by
  constructor
  · intro _
    refine ⟨?_, ?_, ?_⟩
    · rw [pixAt_setPixel, if_pos ⟨rfl, rfl⟩]
    · intro px
      refine ⟨?_, ?_, ?_, ?_⟩
      · intro hp; unfold mergePatch; rw [hp]; rfl
      · intro hp; unfold mergePatch; rw [hp]
      · intro b hp; unfold mergePatch; rw [hp]; rfl
      · intro s hp; unfold mergePatch; rw [hp]
    · intro i j hij
      rw [pixAt_setPixel, if_neg hij]
  · intro hnin
    unfold setPixel
    by_cases hxy : 0 ≤ x ∧ 0 ≤ y
    · rw [if_pos hxy]
      split
      · rfl
      · next row h1 =>
        have hrowlen : row.length = w := by
          obtain ⟨hlt, he⟩ := List.getElem?_eq_some_iff.mp h1
          exact hwf.2 _ (he ▸ List.getElem_mem hlt)
        have hylt : y.toNat < cv.length := (List.getElem?_eq_some_iff.mp h1).1
        have hxge : ¬(x.toNat < row.length) := by
          rw [hrowlen]
          have := hwf.1
          omega
        rw [if_neg hxge]
    · rw [if_neg hxy]

/-- Witness for C7: the in-bounds branch at `(1, 1)` and the out-of-bounds
branch at `(5, 0)` on a concrete 2×2 canvas. -/
theorem claimC7_setPixel_witness :
    pixAt (setPixel (createCanvas 2 2) 1 1 defaultPatch) 1 1 =
        (pixAt (createCanvas 2 2) 1 1).map (mergePatch defaultPatch) ∧
      setPixel (createCanvas 2 2) 5 0 defaultPatch = createCanvas 2 2 :=
  ⟨((claimC7_setPixel (createCanvas 2 2) 2 2 1 1 defaultPatch
      (by unfold WellFormed; decide)).1 (by norm_num)).1,
    (claimC7_setPixel (createCanvas 2 2) 2 2 5 0 defaultPatch
      (by unfold WellFormed; decide)).2 (by norm_num)⟩

/-- The midpoint-circle `while (x <= y)` loop of `drawCircle` (unfilled
branch), fuel-indexed; `radius + 2` fuel suffices since `x` grows by one
per iteration and the loop stops once `x > y ≤ radius`. -/
def drawCircleRing (p : Patch) (cx cy : Int) : Nat → Canvas → Int → Int → Int → Canvas
  | 0, cv, _, _, _ => cv
  | fuel + 1, cv, x, y, d =>
      if x ≤ y then
        let cv1 := setPixel cv (cx + x) (cy + y) p
        let cv2 := setPixel cv1 (cx - x) (cy + y) p
        let cv3 := setPixel cv2 (cx + x) (cy - y) p
        let cv4 := setPixel cv3 (cx - x) (cy - y) p
        let cv5 := setPixel cv4 (cx + y) (cy + x) p
        let cv6 := setPixel cv5 (cx - y) (cy + x) p
        let cv7 := setPixel cv6 (cx + y) (cy - x) p
        let cv8 := setPixel cv7 (cx - y) (cy - x) p
        let x' := x + 1
        if d < 0 then
          drawCircleRing p cx cy fuel cv8 x' y (d + 2 * x' + 1)
        else
          drawCircleRing p cx cy fuel cv8 x' (y - 1) (d + 2 * (x' - (y - 1)) + 1)
      else cv

/-- `Renderer.drawCircle(canvas, centerX, centerY, radius, filled, pixel)`
for a natural-number radius.  The filled branch's scanline loop steps a
floating-point `x` from `-Math.sqrt(r²-y²)`; here the span half-width is the
integer square root, which coincides with the source whenever `r² - y²` is a
perfect square — in particular for the radius-0 case the claims are about. -/
def drawCircle (cv : Canvas) (centerX centerY : Int) (radius : Nat) (filled : Bool)
    (p : Patch) : Canvas :=
  if filled then
    (List.range (2 * radius + 1)).foldl
      (fun acc i =>
        let yy : Int := (i : Int) - radius
        let w : Nat := Nat.sqrt (radius * radius - (yy * yy).toNat)
        (List.range (2 * w + 1)).foldl
          (fun acc2 k =>
            let xx : Int := (k : Int) - w
            setPixel acc2 (centerX + xx) (centerY + yy) p) acc)
      cv
  else
    drawCircleRing p centerX centerY (radius + 2) cv 0 radius (1 - (radius : Int))

/-- C8: a zero-radius `drawCircle` — filled or not — is exactly one
`setPixel` at the center (the unfilled branch's 8 coincident plots collapse
by idempotence): the in-bounds center pixel is merged with the patch and
every other pixel of the canvas is unchanged. -/
theorem claimC8_drawCircle_zero (cv : Canvas) (w h : Nat) (cx cy : Int) (filled : Bool)
    (hwf : WellFormed cv w h) (hin : 0 ≤ cx ∧ cx < w ∧ 0 ≤ cy ∧ cy < h) :
    drawCircle cv cx cy 0 filled defaultPatch = setPixel cv cx cy defaultPatch ∧
    activeAt (drawCircle cv cx cy 0 filled defaultPatch) cx cy = true ∧
    (∀ i j : Int, ¬(i = cx ∧ j = cy) →
      pixAt (drawCircle cv cx cy 0 filled defaultPatch) i j = pixAt cv i j) := by
  have hpix : ∃ px, pixAt cv cx cy = some px := by
    obtain ⟨hlen, hrows⟩ := hwf
    have hy : cy.toNat < cv.length := by omega
    obtain ⟨row, hrow⟩ : ∃ row, cv[cy.toNat]? = some row :=
      ⟨cv[cy.toNat], List.getElem?_eq_getElem hy⟩
    have hx : cx.toNat < row.length := by
      have := hrows _ ((List.getElem?_eq_some_iff.mp hrow).2 ▸
        List.getElem_mem (List.getElem?_eq_some_iff.mp hrow).1)
      omega
    refine ⟨row[cx.toNat], ?_⟩
    unfold pixAt
    rw [if_pos ⟨hin.1, hin.2.2.1⟩, hrow]
    simp only [Option.some_bind]
    exact List.getElem?_eq_getElem hx
  have heq : drawCircle cv cx cy 0 filled defaultPatch = setPixel cv cx cy defaultPatch := by
    cases filled
    · show drawCircleRing defaultPatch cx cy 2 cv 0 0 (1 - (0 : Int)) = _
      unfold drawCircleRing
      norm_num
      unfold drawCircleRing
      norm_num [setPixel_idem]
    · unfold drawCircle
      norm_num [List.range_succ]
  refine ⟨heq, ?_, ?_⟩
  · rw [heq]
    obtain ⟨px, hpx⟩ := hpix
    unfold activeAt
    rw [pixAt_setPixel, if_pos ⟨rfl, rfl⟩, hpx]
    rfl
  · intro i j hij
    rw [heq, pixAt_setPixel, if_neg hij]

/-- Witness for C8: zero-radius circles around `(1, 1)` on a 3×3 canvas. -/
theorem claimC8_drawCircle_zero_witness :
    drawCircle (createCanvas 3 3) 1 1 0 true defaultPatch =
        setPixel (createCanvas 3 3) 1 1 defaultPatch ∧
      drawCircle (createCanvas 3 3) 1 1 0 false defaultPatch =
        setPixel (createCanvas 3 3) 1 1 defaultPatch :=
  ⟨(claimC8_drawCircle_zero (createCanvas 3 3) 3 3 1 1 true
      (by unfold WellFormed; decide) (by norm_num)).1,
    (claimC8_drawCircle_zero (createCanvas 3 3) 3 3 1 1 false
      (by unfold WellFormed; decide) (by norm_num)).1⟩

/-- `Renderer.drawRect(canvas, x, y, width, height, filled, pixel)`.
The unfilled branch draws, exactly as the source does, a bottom side
(`y + height - 1` row), a left side (`x` column) and a right side
(`x + width - 1` column) — and no top side. -/
def drawRect (cv : Canvas) (x y : Int) (width height : Nat) (filled : Bool)
    (p : Patch) : Canvas :=
  if filled then
    (List.range height).foldl
      (fun acc py =>
        (List.range width).foldl
          (fun acc2 px => setPixel acc2 (x + px) (y + py) p) acc)
      cv
  else
    let cv1 := (List.range width).foldl
      (fun acc px => setPixel acc (x + px) (y + height - 1) p) cv
    let cv2 := (List.range height).foldl
      (fun acc py => setPixel acc x (y + py) p) cv1
    (List.range height).foldl
      (fun acc py => setPixel acc (x + width - 1) (y + py) p) cv2

/-- C3 (code evidence): an unfilled `drawRect` over the whole 3×3 canvas
leaves the top-row interior pixel `(1,0)` inactive while setting the
corners, the bottom row and both side columns — the top border segment is
never drawn, contradicting the claim that all four border segments are
set. -/
theorem claimC3_drawRect_missing_top :
    activeAt (drawRect (createCanvas 3 3) 0 0 3 3 false defaultPatch) 1 0 = false ∧
    activeAt (drawRect (createCanvas 3 3) 0 0 3 3 false defaultPatch) 0 0 = true ∧
    activeAt (drawRect (createCanvas 3 3) 0 0 3 3 false defaultPatch) 2 0 = true ∧
    activeAt (drawRect (createCanvas 3 3) 0 0 3 3 false defaultPatch) 1 2 = true ∧
    activeAt (drawRect (createCanvas 3 3) 0 0 3 3 false defaultPatch) 0 1 = true ∧
    activeAt (drawRect (createCanvas 3 3) 0 0 3 3 false defaultPatch) 2 1 = true := by
  decide

/-!
## Braille rasterizer (`BrailleRenderer`)
-/

/-- `DOT_WEIGHTS = [1, 2, 4, 8, 16, 32, 64, 128]`. -/
def DOT_WEIGHTS : List Nat := [1, 2, 4, 8, 16, 32, 64, 128]

/-- `BrailleRenderer.pixelToDotIndex`: left column (x = 0) top-to-bottom is
dots 0,1,2,6; right column is dots 3,4,5,7. -/
def pixelToDotIndex (x y : Nat) : Nat :=
  if x = 0 then (if y = 3 then 6 else y) else (if y = 3 then 7 else y + 3)

/-- `BrailleRenderer.createBrailleChar` as a code point: start from
`BRAILLE_BASE = 0x2800` and add the dot weight of every set dot. -/
def brailleCode (dots : List Bool) : Nat :=
  (List.range 8).foldl
    (fun code i => if dots.getD i false then code + DOT_WEIGHTS.getD i 0 else code)
    0x2800

/-- `BrailleRenderer.createBrailleChar`. -/
def createBrailleChar (dots : List Bool) : Char :=
  Char.ofNat (brailleCode dots)

/-- The 2×4 in-cell pixel positions `(px, py)` in the iteration order of the
source loops (`py` outer, `px` inner). -/
def brailleCellPairs : List (Nat × Nat) :=
  [(0, 0), (1, 0), (0, 1), (1, 1), (0, 2), (1, 2), (0, 3), (1, 3)]

/-- `BrailleRenderer.fillBrailleDots`: an 8-entry dot array, written at
`pixelToDotIndex px py` with the pixel's `active` flag whenever the pixel
lies inside the `width`×`height` canvas. -/
def fillBrailleDots (pixels : Canvas) (cx cy w h : Nat) : List Bool :=
  brailleCellPairs.foldl
    (fun dots q =>
      if cy * 4 + q.2 < h ∧ cx * 2 + q.1 < w then
        dots.set (pixelToDotIndex q.1 q.2)
          (activeAt pixels (cx * 2 + q.1) (cy * 4 + q.2))
      else dots)
    (List.replicate 8 false)

/-- Whether the in-cell position `(px, py)` holds an active canvas pixel
(out-of-canvas positions count as inactive). -/
def cellDot (pixels : Canvas) (cx cy w h px py : Nat) : Bool :=
  decide (cy * 4 + py < h ∧ cx * 2 + px < w) &&
    activeAt pixels (cx * 2 + px) (cy * 4 + py)

/-- The dot-bit of `(px, py)` as the specification states it: left column
top-to-bottom bits 0,1,2,6; right column top-to-bottom bits 3,4,5,7. -/
def brailleSpecBit (px py : Nat) : Nat :=
  match px, py with
  | 0, 0 => 0
  | 0, 1 => 1
  | 0, 2 => 2
  | 0, 3 => 6
  | 1, 0 => 3
  | 1, 1 => 4
  | 1, 2 => 5
  | _, _ => 7

/-- A list whose queried entry is already `false` is unchanged by writing
`false` there. -/
theorem set_false_of_getD (l : List Bool) (i : Nat) (h : l.getD i false = false) :
    l.set i false = l := by
  apply List.ext_getElem?
  intro j
  rcases eq_or_ne j i with rfl | hne
  · rcases Nat.lt_or_ge j l.length with hj | hj
    · rw [List.getElem?_set_self hj]
      rw [List.getD_eq_getElem _ _ hj] at h
      rw [List.getElem?_eq_getElem hj, h]
    · rw [List.getElem?_eq_none hj, List.getElem?_eq_none (by simpa using hj)]
  · rw [List.getElem?_set_ne (fun hc => hne hc.symm)]

/-- A guarded array write `if P then dots[i] = v` over a slot known to be
`false` equals an unconditional write of `decide P && v`. -/
theorem cond_set (dots : List Bool) (i : Nat) (P : Prop) [Decidable P] (v : Bool)
    (h : dots.getD i false = false) :
    (if P then dots.set i v else dots) = dots.set i (decide P && v) := by
  by_cases hp : P
  · rw [if_pos hp, decide_eq_true hp, Bool.true_and]
  · rw [if_neg hp, decide_eq_false hp, Bool.false_and, set_false_of_getD _ _ h]

/-- The dot array of a cell, laid out entry-by-entry: index `i` holds the
activity of the unique cell position with dot index `i`. -/
theorem fillBrailleDots_eq (pixels : Canvas) (cx cy w h : Nat) :
    fillBrailleDots pixels cx cy w h =
      [cellDot pixels cx cy w h 0 0, cellDot pixels cx cy w h 0 1,
        cellDot pixels cx cy w h 0 2, cellDot pixels cx cy w h 1 0,
        cellDot pixels cx cy w h 1 1, cellDot pixels cx cy w h 1 2,
        cellDot pixels cx cy w h 0 3, cellDot pixels cx cy w h 1 3] := by
  unfold fillBrailleDots brailleCellPairs
  rw [List.foldl_cons, cond_set _ _ _ _ (by rfl)]
  rw [List.foldl_cons, cond_set _ _ _ _ (by rfl)]
  rw [List.foldl_cons, cond_set _ _ _ _ (by rfl)]
  rw [List.foldl_cons, cond_set _ _ _ _ (by rfl)]
  rw [List.foldl_cons, cond_set _ _ _ _ (by rfl)]
  rw [List.foldl_cons, cond_set _ _ _ _ (by rfl)]
  rw [List.foldl_cons, cond_set _ _ _ _ (by rfl)]
  rw [List.foldl_cons, cond_set _ _ _ _ (by rfl)]
  rfl

/-- C5: for every canvas and cell, the Braille rasterizer emits the code
point `0x2800` plus the sum of `2^bit` over the cell's active dots, the
left column mapping top-to-bottom to bits 0,1,2,6 and the right column to
bits 3,4,5,7; in particular a blank 2×4 cell yields U+2800 and a cell whose
whole left column is active yields '⡇'. -/
theorem claimC5_braille_bits :
    (∀ (pixels : Canvas) (cx cy w h : Nat),
      (createBrailleChar (fillBrailleDots pixels cx cy w h)).toNat =
        0x2800 + (brailleCellPairs.map
          (fun q => if cellDot pixels cx cy w h q.1 q.2
            then 2 ^ brailleSpecBit q.1 q.2 else 0)).sum) ∧
    createBrailleChar (fillBrailleDots (createCanvas 2 4) 0 0 2 4) = '⠀' ∧
    createBrailleChar (fillBrailleDots
      [[⟨true, none⟩, ⟨false, none⟩], [⟨true, none⟩, ⟨false, none⟩],
        [⟨true, none⟩, ⟨false, none⟩], [⟨true, none⟩, ⟨false, none⟩]] 0 0 2 4) = '⡇' := by
  refine ⟨?_, by decide, by decide⟩
  intro pixels cx cy w h
  rw [fillBrailleDots_eq]
  simp only [brailleCellPairs, List.map_cons, List.map_nil, List.sum_cons, List.sum_nil]
  generalize cellDot pixels cx cy w h 0 0 = a00
  generalize cellDot pixels cx cy w h 0 1 = a01
  generalize cellDot pixels cx cy w h 0 2 = a02
  generalize cellDot pixels cx cy w h 0 3 = a03
  generalize cellDot pixels cx cy w h 1 0 = a10
  generalize cellDot pixels cx cy w h 1 1 = a11
  generalize cellDot pixels cx cy w h 1 2 = a12
  generalize cellDot pixels cx cy w h 1 3 = a13
  revert a00 a01 a02 a03 a10 a11 a12 a13
  decide

/-!
## Styled output lines

`RenderedLine` segments and the shared buffer/flush loop that both
`renderCanvas` implementations use to merge consecutive equal-styled
characters into one run.
-/

/-- One styled run `{ text, color?, backgroundColor? }` of a rendered
line (text as a list of characters). -/
structure Seg where
  text : List Char
  color : Option String := none
  backgroundColor : Option String := none
deriving DecidableEq, Repr

/-- JavaScript truthiness of `bufferColor ? { color: bufferColor } : {}`:
an empty string is falsy, so it yields no color field. -/
def truthyStr (o : Option String) : Option String :=
  match o with
  | some s => if s = "" then none else some s
  | none => none

/-- The buffer/flush loop body shared by the `renderCanvas`
implementations: walk the remaining cells `(char, key)`, flushing the
buffer as a run via `disp` whenever the style key changes. -/
def runFold (keyEq : κ → κ → Bool) (disp : List Char → κ → Seg) :
    List (Char × κ) → List Char → κ → List Seg
  | [], buf, k => if buf.isEmpty then [] else [disp buf k]
  | (ch, key) :: rest, buf, k =>
      if ¬buf.isEmpty ∧ ¬(keyEq k key) then
        disp buf k :: runFold keyEq disp rest [ch] key
      else runFold keyEq disp rest (buf ++ [ch]) key

/-- A whole row: start with an empty buffer and an undefined style, which
never flushes on the first cell. -/
def renderRow (keyEq : κ → κ → Bool) (disp : List Char → κ → Seg)
    (cells : List (Char × κ)) : List Seg :=
  match cells with
  | [] => []
  | (ch, key) :: rest => runFold keyEq disp rest [ch] key

/-- Adjacent runs of a line carry different colors (`true` on runs of
length below two). -/
def adjColorsNe : List Seg → Bool
  | [] => true
  | [_] => true
  | a :: b :: rest => (decide (a.color ≠ b.color)) && adjColorsNe (b :: rest)

theorem runFold_flatten (keyEq : κ → κ → Bool) (disp : List Char → κ → Seg)
    (hdisp : ∀ b k, (disp b k).text = b) :
    ∀ (cells : List (Char × κ)) (buf : List Char) (k : κ),
      ((runFold keyEq disp cells buf k).map Seg.text).flatten =
        buf ++ cells.map Prod.fst := by
  intro cells
  induction cells with
  | nil =>
    intro buf k
    show ((if buf.isEmpty then [] else [disp buf k]).map Seg.text).flatten = buf ++ []
    rcases buf with _ | ⟨c, cs⟩
    · rfl
    · simp [hdisp]
  | cons q rest ih =>
    intro buf k
    obtain ⟨ch, key⟩ := q
    show ((if ¬buf.isEmpty ∧ ¬(keyEq k key) then
        disp buf k :: runFold keyEq disp rest [ch] key
      else runFold keyEq disp rest (buf ++ [ch]) key).map Seg.text).flatten = _
    split
    · simp only [List.map_cons, List.flatten_cons, hdisp, ih]
      simp
    · rw [ih]
      simp

theorem renderRow_flatten (keyEq : κ → κ → Bool) (disp : List Char → κ → Seg)
    (hdisp : ∀ b k, (disp b k).text = b) (cells : List (Char × κ)) :
    ((renderRow keyEq disp cells).map Seg.text).flatten = cells.map Prod.fst := by
  rcases cells with _ | ⟨⟨ch, key⟩, rest⟩
  · rfl
  · show ((runFold keyEq disp rest [ch] key).map Seg.text).flatten = _
    rw [runFold_flatten keyEq disp hdisp]
    rfl

theorem runFold_nonempty_texts (keyEq : κ → κ → Bool) (disp : List Char → κ → Seg)
    (hdisp : ∀ b k, (disp b k).text = b) :
    ∀ (cells : List (Char × κ)) (buf : List Char) (k : κ), buf ≠ [] →
      ∀ s ∈ runFold keyEq disp cells buf k, s.text ≠ [] := by
  intro cells
  induction cells with
  | nil =>
    intro buf k hbuf s hs
    rw [show runFold keyEq disp [] buf k = if buf.isEmpty then [] else [disp buf k] from rfl,
      if_neg (by simpa using hbuf)] at hs
    rcases List.mem_cons.mp hs with rfl | h
    · rw [hdisp]; exact hbuf
    · cases h
  | cons q rest ih =>
    intro buf k hbuf s hs
    obtain ⟨ch, key⟩ := q
    rw [show runFold keyEq disp ((ch, key) :: rest) buf k =
        if ¬buf.isEmpty ∧ ¬(keyEq k key) then
          disp buf k :: runFold keyEq disp rest [ch] key
        else runFold keyEq disp rest (buf ++ [ch]) key from rfl] at hs
    split at hs
    · rcases List.mem_cons.mp hs with rfl | h
      · rw [hdisp]; exact hbuf
      · exact ih [ch] key (by simp) s h
    · exact ih (buf ++ [ch]) key (by simp) s hs

theorem renderRow_nonempty_texts (keyEq : κ → κ → Bool) (disp : List Char → κ → Seg)
    (hdisp : ∀ b k, (disp b k).text = b) (cells : List (Char × κ)) :
    ∀ s ∈ renderRow keyEq disp cells, s.text ≠ [] := by
  rcases cells with _ | ⟨⟨ch, key⟩, rest⟩
  · intro s hs; cases hs
  · exact runFold_nonempty_texts keyEq disp hdisp rest [ch] key (by simp)

/-- Braille run flush: `bufferColor ? { text, color: bufferColor } : { text }`. -/
def brailleDisp (buf : List Char) (k : Option String) : Seg :=
  { text := buf, color := truthyStr k }

/-- Braille run-boundary test `bufferColor !== color` on `string | undefined`. -/
def brailleKeyEq (a b : Option String) : Bool := a == b

theorem truthyStr_inj {a b : Option String} (ha : a ≠ some "") (hb : b ≠ some "")
    (hne : a ≠ b) : truthyStr a ≠ truthyStr b := by
  rcases a with _ | sa <;> rcases b with _ | sb
  · exact absurd rfl hne
  · have hsb : sb ≠ "" := fun hs => hb (by rw [hs])
    simp [truthyStr, hsb]
  · have hsa : sa ≠ "" := fun hs => ha (by rw [hs])
    simp [truthyStr, hsa]
  · have hsa : sa ≠ "" := fun hs => ha (by rw [hs])
    have hsb : sb ≠ "" := fun hs => hb (by rw [hs])
    have hss : sa ≠ sb := fun hs => hne (by rw [hs])
    simp [truthyStr, hsa, hsb, hss]

theorem runFold_braille_adj :
    ∀ (cells : List (Char × Option String)) (buf : List Char) (k : Option String),
      buf ≠ [] → (∀ key ∈ k :: cells.map Prod.snd, key ≠ some "") →
      runFold brailleKeyEq brailleDisp cells buf k ≠ [] ∧
      (runFold brailleKeyEq brailleDisp cells buf k).head?.map Seg.color =
        some (truthyStr k) ∧
      adjColorsNe (runFold brailleKeyEq brailleDisp cells buf k) = true := by
  intro cells
  induction cells with
  | nil =>
    intro buf k hbuf _
    rw [show runFold brailleKeyEq brailleDisp [] buf k =
      if buf.isEmpty then [] else [brailleDisp buf k] from rfl,
      if_neg (by simpa using hbuf)]
    exact ⟨by simp, rfl, rfl⟩
  | cons q rest ih =>
    intro buf k hbuf hk
    obtain ⟨ch, key⟩ := q
    have hkk : k ≠ some "" := hk k (by simp)
    have hkey : key ≠ some "" := hk key (by simp)
    have hktail : ∀ key' ∈ key :: rest.map Prod.snd, key' ≠ some "" := by
      intro key' hmem
      rcases List.mem_cons.mp hmem with rfl | h
      · exact hkey
      · exact hk key' (by simp [h])
    rw [show runFold brailleKeyEq brailleDisp ((ch, key) :: rest) buf k =
        if ¬buf.isEmpty ∧ ¬(brailleKeyEq k key) then
          brailleDisp buf k :: runFold brailleKeyEq brailleDisp rest [ch] key
        else runFold brailleKeyEq brailleDisp rest (buf ++ [ch]) key from rfl]
    split
    · next hcond =>
      have hne : k ≠ key := by
        intro hkeq
        exact hcond.2 (by rw [hkeq]; simp [brailleKeyEq])
      obtain ⟨hne', hhead, hadj⟩ := ih [ch] key (by simp) hktail
      refine ⟨by simp, rfl, ?_⟩
      rcases hout : runFold brailleKeyEq brailleDisp rest [ch] key with _ | ⟨s, out⟩
      · exact absurd hout hne'
      · rw [hout] at hhead hadj
        show ((decide (truthyStr k ≠ s.color)) && adjColorsNe (s :: out)) = true
        have hscolor : s.color = truthyStr key := by
          simpa using hhead
        rw [hadj, hscolor, Bool.and_true, decide_eq_true_eq]
        exact truthyStr_inj hkk hkey hne
    · next hcond =>
      have hkeq : k = key := by
        rcases not_and_or.mp hcond with h | h
        · exact absurd (by simpa using hbuf) (by simpa using h)
        · have := not_not.mp h
          simpa [brailleKeyEq] using this
      subst hkeq
      exact ih (buf ++ [ch]) k (by simp) hktail

/-!
## Block-element rasterizer (`BlockRenderer`)
-/

/-- The hand-tuned 9×9 lookup table `BLOCK_LUT`:
`BLOCK_LUT[leftHeight][rightHeight]` is the glyph for those column fill
heights. -/
def BLOCK_LUT : List (List Char) :=
  [[' ', '▗', '▗', '▗', '▗', '▗', '▗', '▐', '▐'],
   ['▖', '▂', '▂', '▃', '▃', '▄', '▄', '▅', '▅'],
   ['▖', '▂', '▂', '▃', '▃', '▄', '▄', '▅', '▅'],
   ['▖', '▃', '▃', '▃', '▄', '▄', '▅', '▅', '▅'],
   ['▖', '▃', '▃', '▄', '▄', '▅', '▅', '▆', '▆'],
   ['▖', '▄', '▄', '▅', '▅', '▅', '▆', '▆', '▇'],
   ['▖', '▄', '▄', '▅', '▅', '▆', '▆', '▇', '▇'],
   ['▌', '▅', '▅', '▆', '▆', '▇', '▇', '▇', '█'],
   ['▌', '▅', '▅', '▆', '▆', '▇', '▇', '█', '█']]

/-- `BLOCK_LUT[l]?.[r] ?? ' '`. -/
def lutGet (l r : Nat) : Char := (BLOCK_LUT.getD l []).getD r ' '

/-- The per-column statistics of `analyzeColumn`: number of active pixels
and their mean row index (`3.5` for an empty column). -/
structure ColStat where
  count : Nat
  gravity : ℚ
deriving DecidableEq, Repr

/-- `analyzeColumn` of `BlockRenderer.renderCanvas`: scan the 8 cell rows
that exist (`startY + py < height`), count active pixels and average their
in-cell row index. -/
def analyzeColumn (pixels : Canvas) (h startY : Nat) (colX : Int) : ColStat :=
  let act := ((List.range 8).filter (fun py => startY + py < h)).filter
    (fun py => activeAt pixels colX ((startY + py : Nat) : Int))
  { count := act.length
    gravity := if act.length > 0 then mkRat act.sum act.length else mkRat 7 2 }

/-- The 2×8 in-cell positions `(px, py)` in the iteration order of
`BlockRenderer.resolveColor` (`py` outer, `px` inner). -/
def blockCellPairs : List (Nat × Nat) :=
  [(0, 0), (1, 0), (0, 1), (1, 1), (0, 2), (1, 2), (0, 3), (1, 3),
   (0, 4), (1, 4), (0, 5), (1, 5), (0, 6), (1, 6), (0, 7), (1, 7)]

/-- The colors of the active, colored, in-canvas pixels of a 2×8 cell in
iteration order (`pixel?.active && pixel.color` — an empty color string is
falsy and therefore not collected). -/
def colorsInBlockCell (pixels : Canvas) (startX startY w h : Nat) : List String :=
  blockCellPairs.filterMap (fun q =>
    if startY + q.2 ≥ h ∨ startX + q.1 ≥ w then none
    else match pixAt pixels ((startX + q.1 : Nat) : Int) ((startY + q.2 : Nat) : Int) with
      | some px => if px.active then truthyStr px.color else none
      | none => none)

/-- One step of the `Map`-based tally: increment an existing color's count
in place, or append a first occurrence (JavaScript `Map` iterates in
insertion order). -/
def tallyAdd : List (String × Nat) → String → List (String × Nat)
  | [], c => [(c, 1)]
  | (c', n) :: rest, c =>
      if c' = c then (c', n + 1) :: rest else (c', n) :: tallyAdd rest c

/-- The insertion-ordered `counts` map of the `resolveColor` helpers. -/
def tally (cs : List String) : List (String × Nat) := cs.foldl tallyAdd []

/-- The `maxCount`/`dominantColor` scan of `resolveColor`: the first entry
whose count strictly exceeds every earlier count wins (an empty tally — the
`counts.size === 0` early return — yields no color). -/
def pickDominant (l : List (String × Nat)) : Option String :=
  (l.foldl (fun acc q => if q.2 > acc.1 then (q.2, some q.1) else acc)
    ((0 : Nat), (none : Option String))).2

/-- `BlockRenderer.resolveColor`: majority color of the cell. -/
def resolveColorBlock (pixels : Canvas) (startX startY w h : Nat) : Option String :=
  pickDominant (tally (colorsInBlockCell pixels startX startY w h))

/-- A column is top-heavy: at least one active pixel and mean active
row-index strictly below 3.5. -/
def topHeavy (pixels : Canvas) (h startY : Nat) (colX : Int) : Prop :=
  0 < (analyzeColumn pixels h startY colX).count ∧
    (analyzeColumn pixels h startY colX).gravity < mkRat 7 2

instance (pixels : Canvas) (h startY : Nat) (colX : Int) :
    Decidable (topHeavy pixels h startY colX) := by
  unfold topHeavy
  infer_instance

/-- The inverted-rendering trigger of `BlockRenderer.renderCanvas`:
`(isLeftTop && (isRightTop || right.count === 0)) ||
 (isRightTop && (isLeftTop || left.count === 0))`. -/
def blockInvCond (pixels : Canvas) (h cx cy : Nat) : Prop :=
  (topHeavy pixels h (cy * 8) ((cx * 2 : Nat) : Int) ∧
    (topHeavy pixels h (cy * 8) ((cx * 2 + 1 : Nat) : Int) ∨
      (analyzeColumn pixels h (cy * 8) ((cx * 2 + 1 : Nat) : Int)).count = 0)) ∨
  (topHeavy pixels h (cy * 8) ((cx * 2 + 1 : Nat) : Int) ∧
    (topHeavy pixels h (cy * 8) ((cx * 2 : Nat) : Int) ∨
      (analyzeColumn pixels h (cy * 8) ((cx * 2 : Nat) : Int)).count = 0))

instance (pixels : Canvas) (h cx cy : Nat) : Decidable (blockInvCond pixels h cx cy) := by
  unfold blockInvCond
  infer_instance

/-- The glyph and `(foreground, background)` style the Block rasterizer
computes for the character cell `(cx, cy)` (lines 537-607 of the source:
column analysis, mode decision, lookup, color logic). -/
def blockCell (pixels : Canvas) (w h cx cy : Nat) : Char × Option String × Option String :=
  let left := analyzeColumn pixels h (cy * 8) ((cx * 2 : Nat) : Int)
  let right := analyzeColumn pixels h (cy * 8) ((cx * 2 + 1 : Nat) : Int)
  let pixelColor := resolveColorBlock pixels (cx * 2) (cy * 8) w h
  if blockInvCond pixels h cx cy then
    let ch := lutGet (8 - left.count) (8 - right.count)
    if ch ≠ ' ' then (ch, some "black", pixelColor) else (ch, none, none)
  else
    let ch := lutGet (min 8 (max 0 left.count)) (min 8 (max 0 right.count))
    if ch ≠ ' ' then (ch, pixelColor, none) else (ch, none, none)

theorem analyzeColumn_count_le (pixels : Canvas) (h startY : Nat) (colX : Int) :
    (analyzeColumn pixels h startY colX).count ≤ 8 := by
  show (((List.range 8).filter (fun py => startY + py < h)).filter
    (fun py => activeAt pixels colX ((startY + py : Nat) : Int))).length ≤ 8
  calc (((List.range 8).filter (fun py => startY + py < h)).filter
        (fun py => activeAt pixels colX ((startY + py : Nat) : Int))).length
      ≤ ((List.range 8).filter (fun py => startY + py < h)).length :=
        List.length_filter_le _ _
    _ ≤ (List.range 8).length := List.length_filter_le _ _
    _ = 8 := List.length_range 8

theorem analyzeColumn_count_eight (pixels : Canvas) (h startY : Nat) (colX : Int)
    (hc : (analyzeColumn pixels h startY colX).count = 8) :
    (analyzeColumn pixels h startY colX).gravity = mkRat 7 2 := by
  have hsub : List.Sublist (((List.range 8).filter (fun py => startY + py < h)).filter
      (fun py => activeAt pixels colX ((startY + py : Nat) : Int))) (List.range 8) :=
    (List.filter_sublist _).trans (List.filter_sublist _)
  have hlen : (((List.range 8).filter (fun py => startY + py < h)).filter
      (fun py => activeAt pixels colX ((startY + py : Nat) : Int))).length = 8 := hc
  have heq : (((List.range 8).filter (fun py => startY + py < h)).filter
      (fun py => activeAt pixels colX ((startY + py : Nat) : Int))) = List.range 8 :=
    hsub.eq_of_length (by rw [hlen, List.length_range])
  show (if _ > 0 then mkRat _ _ else mkRat 7 2 : ℚ) = mkRat 7 2
  rw [heq]
  rfl

theorem lutGet_space_iff : ∀ l r : Fin 9,
    (lutGet l.val r.val = ' ' ↔ l.val = 0 ∧ r.val = 0) := by decide

theorem count_zero_inactive (pixels : Canvas) (h startY : Nat) (colX : Int)
    (hc : (analyzeColumn pixels h startY colX).count = 0) :
    ∀ py, py < 8 → startY + py < h →
      activeAt pixels colX ((startY + py : Nat) : Int) = false := by
  intro py hpy hin
  have hnil : (((List.range 8).filter (fun py => startY + py < h)).filter
      (fun py => activeAt pixels colX ((startY + py : Nat) : Int))) = [] :=
    List.length_eq_zero.mp hc
  by_contra hact
  have hactT : activeAt pixels colX ((startY + py : Nat) : Int) = true := by
    rcases hq : activeAt pixels colX ((startY + py : Nat) : Int)
    · exact absurd hq hact
    · rfl
  have hmem : py ∈ (((List.range 8).filter (fun py => startY + py < h)).filter
      (fun py => activeAt pixels colX ((startY + py : Nat) : Int))) :=
    List.mem_filter.mpr ⟨List.mem_filter.mpr ⟨List.mem_range.mpr hpy, by simpa⟩, by simpa⟩
  rw [hnil] at hmem
  cases hmem

theorem colorsInBlockCell_nil (pixels : Canvas) (startY w h cx : Nat)
    (hl : (analyzeColumn pixels h startY ((cx * 2 : Nat) : Int)).count = 0)
    (hr : (analyzeColumn pixels h startY ((cx * 2 + 1 : Nat) : Int)).count = 0) :
    colorsInBlockCell pixels (cx * 2) startY w h = [] := by
  unfold colorsInBlockCell
  rw [List.filterMap_eq_nil_iff]
  intro q hq
  have hbounds : (q.1 = 0 ∨ q.1 = 1) ∧ q.2 < 8 := by
    simp only [blockCellPairs, List.mem_cons, List.not_mem_nil, or_false] at hq
    rcases hq with h | h | h | h | h | h | h | h | h | h | h | h | h | h | h | h <;>
      simp [h]
  by_cases hout : startY + q.2 ≥ h ∨ cx * 2 + q.1 ≥ w
  · rw [if_pos hout]
  · rw [if_neg hout]
    push_neg at hout
    have hactF : activeAt pixels ((cx * 2 + q.1 : Nat) : Int) ((startY + q.2 : Nat) : Int)
        = false := by
      rcases hbounds.1 with h0 | h1
      · rw [h0]
        have := count_zero_inactive pixels h startY _ hl q.2 hbounds.2 hout.1
        simpa using this
      · rw [h1]
        have := count_zero_inactive pixels h startY _ hr q.2 hbounds.2 hout.1
        simpa using this
    rcases hpx : pixAt pixels ((cx * 2 + q.1 : Nat) : Int) ((startY + q.2 : Nat) : Int)
      with _ | px
    · rfl
    · show (if px.active = true then truthyStr px.color else none) = none
      unfold activeAt at hactF
      rw [hpx] at hactF
      simp at hactF
      rw [if_neg (by simp [hactF])]

theorem resolveColorBlock_none (pixels : Canvas) (startY w h cx : Nat)
    (hl : (analyzeColumn pixels h startY ((cx * 2 : Nat) : Int)).count = 0)
    (hr : (analyzeColumn pixels h startY ((cx * 2 + 1 : Nat) : Int)).count = 0) :
    resolveColorBlock pixels (cx * 2) startY w h = none := by
  unfold resolveColorBlock
  rw [colorsInBlockCell_nil pixels startY w h cx hl hr]
  rfl

/-- In inverted mode the looked-up glyph is never the space (some column is
top-heavy, hence has count below 8, so some inverted index is nonzero). -/
theorem blockCell_inv (pixels : Canvas) (w h cx cy : Nat)
    (hcond : blockInvCond pixels h cx cy) :
    blockCell pixels w h cx cy =
      (lutGet (8 - (analyzeColumn pixels h (cy * 8) ((cx * 2 : Nat) : Int)).count)
          (8 - (analyzeColumn pixels h (cy * 8) ((cx * 2 + 1 : Nat) : Int)).count),
        some "black", resolveColorBlock pixels (cx * 2) (cy * 8) w h) := by
  have hl8 := analyzeColumn_count_le pixels h (cy * 8) ((cx * 2 : Nat) : Int)
  have hr8 := analyzeColumn_count_le pixels h (cy * 8) ((cx * 2 + 1 : Nat) : Int)
  have hne : ¬((analyzeColumn pixels h (cy * 8) ((cx * 2 : Nat) : Int)).count = 8 ∧
      (analyzeColumn pixels h (cy * 8) ((cx * 2 + 1 : Nat) : Int)).count = 8) := by
    rintro ⟨hL, hR⟩
    rcases hcond with ⟨⟨_, hg⟩, _⟩ | ⟨⟨_, hg⟩, _⟩
    · rw [analyzeColumn_count_eight pixels h (cy * 8) _ hL] at hg
      exact absurd hg (lt_irrefl _)
    · rw [analyzeColumn_count_eight pixels h (cy * 8) _ hR] at hg
      exact absurd hg (lt_irrefl _)
  have hchar : lutGet (8 - (analyzeColumn pixels h (cy * 8) ((cx * 2 : Nat) : Int)).count)
      (8 - (analyzeColumn pixels h (cy * 8) ((cx * 2 + 1 : Nat) : Int)).count) ≠ ' ' := by
    intro hsp
    have := (lutGet_space_iff
      ⟨8 - (analyzeColumn pixels h (cy * 8) ((cx * 2 : Nat) : Int)).count, by omega⟩
      ⟨8 - (analyzeColumn pixels h (cy * 8) ((cx * 2 + 1 : Nat) : Int)).count,
        by omega⟩).mp hsp
    have h1 : 8 - (analyzeColumn pixels h (cy * 8) ((cx * 2 : Nat) : Int)).count = 0 :=
      this.1
    have h2 : 8 - (analyzeColumn pixels h (cy * 8) ((cx * 2 + 1 : Nat) : Int)).count = 0 :=
      this.2
    exact hne ⟨by omega, by omega⟩
  unfold blockCell
  rw [if_pos hcond, if_pos hchar]

theorem blockCell_std (pixels : Canvas) (w h cx cy : Nat)
    (hcond : ¬blockInvCond pixels h cx cy) :
    blockCell pixels w h cx cy =
      (lutGet (analyzeColumn pixels h (cy * 8) ((cx * 2 : Nat) : Int)).count
          (analyzeColumn pixels h (cy * 8) ((cx * 2 + 1 : Nat) : Int)).count,
        resolveColorBlock pixels (cx * 2) (cy * 8) w h, none) := by
  have hl8 := analyzeColumn_count_le pixels h (cy * 8) ((cx * 2 : Nat) : Int)
  have hr8 := analyzeColumn_count_le pixels h (cy * 8) ((cx * 2 + 1 : Nat) : Int)
  have hminl : min 8 (max 0 (analyzeColumn pixels h (cy * 8) ((cx * 2 : Nat) : Int)).count) =
      (analyzeColumn pixels h (cy * 8) ((cx * 2 : Nat) : Int)).count := by omega
  have hminr : min 8 (max 0 (analyzeColumn pixels h (cy * 8)
      ((cx * 2 + 1 : Nat) : Int)).count) =
      (analyzeColumn pixels h (cy * 8) ((cx * 2 + 1 : Nat) : Int)).count := by omega
  unfold blockCell
  rw [if_neg hcond, hminl, hminr]
  by_cases hch : lutGet (analyzeColumn pixels h (cy * 8) ((cx * 2 : Nat) : Int)).count
      (analyzeColumn pixels h (cy * 8) ((cx * 2 + 1 : Nat) : Int)).count = ' '
  · rw [if_neg (by simpa using hch)]
    have hz := (lutGet_space_iff
      ⟨(analyzeColumn pixels h (cy * 8) ((cx * 2 : Nat) : Int)).count, by omega⟩
      ⟨(analyzeColumn pixels h (cy * 8) ((cx * 2 + 1 : Nat) : Int)).count,
        by omega⟩).mp hch
    rw [resolveColorBlock_none pixels (cy * 8) w h cx hz.1 hz.2]
  · rw [if_pos hch]

/-- C1: a Block-rasterizer cell uses inverted rendering exactly when one
pixel column is top-heavy (at least one active pixel, mean active row-index
strictly below 3.5) and the other is top-heavy or empty; in that mode the
glyph is the 9×9 table entry at `(8 - count(left), 8 - count(right))`,
styled with the forced neutral foreground `"black"` and the cell's dominant
pixel color as background; in every other cell the glyph is the entry at
`(count(left), count(right))` with the dominant color as foreground and no
background. -/
theorem claimC1_blockCell_modes (pixels : Canvas) (w h cx cy : Nat) :
    blockCell pixels w h cx cy =
      if (topHeavy pixels h (cy * 8) ((cx * 2 : Nat) : Int) ∧
            (topHeavy pixels h (cy * 8) ((cx * 2 + 1 : Nat) : Int) ∨
              (analyzeColumn pixels h (cy * 8) ((cx * 2 + 1 : Nat) : Int)).count = 0)) ∨
          (topHeavy pixels h (cy * 8) ((cx * 2 + 1 : Nat) : Int) ∧
            (topHeavy pixels h (cy * 8) ((cx * 2 : Nat) : Int) ∨
              (analyzeColumn pixels h (cy * 8) ((cx * 2 : Nat) : Int)).count = 0))
      then
        (lutGet (8 - (analyzeColumn pixels h (cy * 8) ((cx * 2 : Nat) : Int)).count)
            (8 - (analyzeColumn pixels h (cy * 8) ((cx * 2 + 1 : Nat) : Int)).count),
          some "black", resolveColorBlock pixels (cx * 2) (cy * 8) w h)
      else
        (lutGet (analyzeColumn pixels h (cy * 8) ((cx * 2 : Nat) : Int)).count
            (analyzeColumn pixels h (cy * 8) ((cx * 2 + 1 : Nat) : Int)).count,
          resolveColorBlock pixels (cx * 2) (cy * 8) w h, none) := by
  by_cases hcond : blockInvCond pixels h cx cy
  · rw [blockCell_inv pixels w h cx cy hcond]
    rw [if_pos (show (_ ∧ (_ ∨ _)) ∨ (_ ∧ (_ ∨ _)) from hcond)]
  · rw [blockCell_std pixels w h cx cy hcond]
    rw [if_neg (show ¬((_ ∧ (_ ∨ _)) ∨ (_ ∧ (_ ∨ _))) from hcond)]

/-- C9: whenever the Block rasterizer chooses inverted rendering for a cell,
the style it computes has foreground exactly the literal string `"black"`
regardless of the pixel colors; and if no active pixel of the cell carries a
color, the cell style is foreground `"black"` with no background at all. -/
theorem claimC9_inverted_style (pixels : Canvas) (w h cx cy : Nat)
    (hinv : blockInvCond pixels h cx cy) :
    (blockCell pixels w h cx cy).2.1 = some "black" ∧
    (resolveColorBlock pixels (cx * 2) (cy * 8) w h = none →
      (blockCell pixels w h cx cy).2.1 = some "black" ∧
      (blockCell pixels w h cx cy).2.2 = none) := by
  rw [blockCell_inv pixels w h cx cy hinv]
  exact ⟨rfl, fun hn => ⟨rfl, hn⟩⟩

/-- A 2×8 cell with a single active, uncolored pixel in the top-left
corner: the left column is top-heavy and the right column empty, so the
Block rasterizer inverts it. -/
def invExampleCanvas : Canvas :=
  [[⟨true, none⟩, ⟨false, none⟩], [⟨false, none⟩, ⟨false, none⟩],
   [⟨false, none⟩, ⟨false, none⟩], [⟨false, none⟩, ⟨false, none⟩],
   [⟨false, none⟩, ⟨false, none⟩], [⟨false, none⟩, ⟨false, none⟩],
   [⟨false, none⟩, ⟨false, none⟩], [⟨false, none⟩, ⟨false, none⟩]]

/-- Witness for C9 at a concrete inverted cell without colors. -/
theorem claimC9_inverted_style_witness :
    blockInvCond invExampleCanvas 8 0 0 ∧
    (blockCell invExampleCanvas 2 8 0 0).2.1 = some "black" ∧
    (blockCell invExampleCanvas 2 8 0 0).2.2 = none :=
  ⟨by decide, (claimC9_inverted_style invExampleCanvas 2 8 0 0 (by decide)).1,
    ((claimC9_inverted_style invExampleCanvas 2 8 0 0 (by decide)).2 (by decide)).2⟩

/-- The colors of the active, colored, in-canvas pixels of a 2×4 Braille
cell in iteration order (`pixel?.active && pixel.color`). -/
def colorsInBrailleCell (pixels : Canvas) (cx cy w h : Nat) : List String :=
  brailleCellPairs.filterMap (fun q =>
    if cy * 4 + q.2 < h ∧ cx * 2 + q.1 < w then
      match pixAt pixels ((cx * 2 + q.1 : Nat) : Int) ((cy * 4 + q.2 : Nat) : Int) with
      | some px => if px.active then truthyStr px.color else none
      | none => none
    else none)

/-- `BrailleRenderer.resolveColor`: majority color of the 2×4 cell. -/
def resolveColorBraille (pixels : Canvas) (cx cy w h : Nat) : Option String :=
  pickDominant (tally (colorsInBrailleCell pixels cx cy w h))

/-- The glyph of one Braille cell. -/
def brailleCellChar (pixels : Canvas) (cx cy w h : Nat) : Char :=
  createBrailleChar (fillBrailleDots pixels cx cy w h)

/-- `BrailleRenderer.renderCanvas`: `ceil(h/4)` rows of `ceil(w/2)` cells,
merged into color runs by the shared buffer loop. -/
def brailleRenderCanvas (pixels : Canvas) (w h : Nat) : List (List Seg) :=
  (List.range ((h + 3) / 4)).map (fun cy =>
    renderRow brailleKeyEq brailleDisp
      ((List.range ((w + 1) / 2)).map (fun cx =>
        (brailleCellChar pixels cx cy w h, resolveColorBraille pixels cx cy w h))))

/-- The `${fgColor}|${bgColor}` run key of `BlockRenderer.renderCanvas`
(JavaScript renders `undefined` as the string "undefined"). -/
def blockKeyStr (k : Option String × Option String) : String :=
  (match k.1 with | some s => s | none => "undefined") ++ "|" ++
    (match k.2 with | some s => s | none => "undefined")

/-- Block run-boundary test `bufferColorKey !== colorKey`. -/
def blockKeyEq (a b : Option String × Option String) : Bool :=
  blockKeyStr a == blockKeyStr b

/-- Block run flush, with the spread-conditional fields
`...(bufferFg ? {color} : {})` and `...(bufferBg ? {backgroundColor} : {})`. -/
def blockDisp (buf : List Char) (k : Option String × Option String) : Seg :=
  { text := buf, color := truthyStr k.1, backgroundColor := truthyStr k.2 }

/-- `BlockRenderer.renderCanvas`: `ceil(h/8)` rows of `ceil(w/2)` cells. -/
def blockRenderCanvas (pixels : Canvas) (w h : Nat) : List (List Seg) :=
  (List.range ((h + 7) / 8)).map (fun cy =>
    renderRow blockKeyEq blockDisp
      ((List.range ((w + 1) / 2)).map (fun cx =>
        ((blockCell pixels w h cx cy).1, (blockCell pixels w h cx cy).2))))

theorem pickDominant_mem (l : List (String × Nat)) (c : String) :
    pickDominant l = some c → ∃ n, (c, n) ∈ l := by
  have key : ∀ (l : List (String × Nat)) (acc : Nat × Option String),
      (l.foldl (fun acc q => if q.2 > acc.1 then (q.2, some q.1) else acc) acc).2 = some c →
      acc.2 = some c ∨ ∃ n, (c, n) ∈ l := by
    intro l
    induction l with
    | nil => intro acc hacc; exact Or.inl hacc
    | cons q rest ih =>
      intro acc hacc
      rcases ih _ hacc with hstep | ⟨n, hn⟩
      · have hstep' : (if q.2 > acc.1 then (q.2, some q.1) else acc).2 = some c := hstep
        by_cases hgt : q.2 > acc.1
        · rw [if_pos hgt] at hstep'
          right
          refine ⟨q.2, ?_⟩
          have hc : c = q.1 := by
            have := hstep'
            simp at this
            exact this.symm
          rw [hc, show (q.1, q.2) = q from rfl]
          exact List.mem_cons_self _ _
        · rw [if_neg hgt] at hstep'
          exact Or.inl hstep'
      · exact Or.inr ⟨n, List.mem_cons_of_mem _ hn⟩
  intro h
  rcases key l (0, none) h with h0 | h1
  · cases h0
  · exact h1

theorem tallyAdd_key_mem : ∀ (acc : List (String × Nat)) (c' c : String) (n : Nat),
    (c, n) ∈ tallyAdd acc c' → (∃ m, (c, m) ∈ acc) ∨ c = c'
  | [], c', c, n, hmem => by
      unfold tallyAdd at hmem
      have h := List.mem_singleton.mp hmem
      right
      injection h with h1 _
  | (a, b) :: rest, c', c, n, hmem => by
      unfold tallyAdd at hmem
      by_cases hq : a = c'
      · rw [if_pos hq] at hmem
        rcases List.mem_cons.mp hmem with h | h
        · left
          have hc : c = a := by injection h with h1 _
          exact ⟨b, by rw [hc]; exact List.mem_cons_self _ _⟩
        · exact Or.inl ⟨n, List.mem_cons_of_mem _ h⟩
      · rw [if_neg hq] at hmem
        rcases List.mem_cons.mp hmem with h | h
        · left
          have hc : c = a := by injection h with h1 _
          have hn : n = b := by injection h with _ h2
          exact ⟨b, by rw [hc]; exact List.mem_cons_self _ _⟩
        · rcases tallyAdd_key_mem rest c' c n h with ⟨m, hm⟩ | he
          · exact Or.inl ⟨m, List.mem_cons_of_mem _ hm⟩
          · exact Or.inr he

theorem tally_key_mem (cs : List String) (c : String) (n : Nat) :
    (c, n) ∈ tally cs → c ∈ cs := by
  have key : ∀ (cs : List String) (acc : List (String × Nat)) (n : Nat),
      (c, n) ∈ cs.foldl tallyAdd acc → (∃ m, (c, m) ∈ acc) ∨ c ∈ cs := by
    intro cs
    induction cs with
    | nil => intro acc n h; exact Or.inl ⟨n, h⟩
    | cons c' rest ih =>
      intro acc n h
      rcases ih (tallyAdd acc c') n h with ⟨m, hm⟩ | hmem
      · rcases tallyAdd_key_mem acc c' c m hm with ⟨m', hm'⟩ | he
        · exact Or.inl ⟨m', hm'⟩
        · exact Or.inr (by rw [he]; exact List.mem_cons_self _ _)
      · exact Or.inr (List.mem_cons_of_mem _ hmem)
  intro h
  rcases key cs [] n h with ⟨m, hm⟩ | hmem
  · cases hm
  · exact hmem

theorem colorsInBrailleCell_ne_empty (pixels : Canvas) (cx cy w h : Nat) (s : String) :
    s ∈ colorsInBrailleCell pixels cx cy w h → s ≠ "" := by
  intro hmem
  obtain ⟨q, _, hq⟩ := List.mem_filterMap.mp hmem
  by_cases hin : cy * 4 + q.2 < h ∧ cx * 2 + q.1 < w
  · rw [if_pos hin] at hq
    rcases hpx : pixAt pixels ((cx * 2 + q.1 : Nat) : Int) ((cy * 4 + q.2 : Nat) : Int)
      with _ | px
    · rw [hpx] at hq; cases hq
    · rw [hpx] at hq
      by_cases hact : px.active = true
      · rw [show (match some px with
            | some px => if px.active = true then truthyStr px.color else none
            | none => none) = if px.active = true then truthyStr px.color else none
            from rfl, if_pos hact] at hq
        rcases hc : px.color with _ | col
        · rw [hc] at hq; cases hq
        · rw [hc] at hq
          by_cases hemp : col = ""
          · rw [show truthyStr (some col) = if col = "" then none else some col from rfl,
              if_pos hemp] at hq
            cases hq
          · rw [show truthyStr (some col) = if col = "" then none else some col from rfl,
              if_neg hemp] at hq
            injection hq with hq1
            rw [← hq1]
            exact hemp
      · rw [show (match some px with
            | some px => if px.active = true then truthyStr px.color else none
            | none => none) = if px.active = true then truthyStr px.color else none
            from rfl, if_neg hact] at hq
        cases hq
  · rw [if_neg hin] at hq
    cases hq

theorem resolveColorBraille_ne_empty (pixels : Canvas) (cx cy w h : Nat) :
    resolveColorBraille pixels cx cy w h ≠ some "" := by
  intro hres
  obtain ⟨n, hn⟩ := pickDominant_mem _ _ hres
  exact colorsInBrailleCell_ne_empty pixels cx cy w h "" (tally_key_mem _ _ _ hn) rfl

theorem renderRow_braille_adj (cells : List (Char × Option String))
    (hk : ∀ key ∈ cells.map Prod.snd, key ≠ some "") :
    adjColorsNe (renderRow brailleKeyEq brailleDisp cells) = true := by
  rcases cells with _ | ⟨⟨ch, key⟩, rest⟩
  · rfl
  · exact (runFold_braille_adj rest [ch] key (by simp)
      (by
        intro key' hmem
        rcases List.mem_cons.mp hmem with rfl | hmem'
        · exact hk key' (by simp)
        · exact hk key' (by simp [hmem']))).2.2

/-- The number of run boundaries in a row of per-cell style keys: one for
every adjacent pair of distinct keys. -/
def keyChanges {σ : Type} [DecidableEq σ] : List σ → Nat
  | [] => 0
  | [_] => 0
  | a :: b :: rest => (if a = b then 0 else 1) + keyChanges (b :: rest)

theorem blockKeyEq_eq (a b : Option String × Option String) :
    blockKeyEq a b = decide (blockKeyStr a = blockKeyStr b) := by
  unfold blockKeyEq
  by_cases h : blockKeyStr a = blockKeyStr b <;> simp [h]

/-- The buffer/flush loop emits exactly one run per maximal block of cells
with equal style key: consecutive equal-keyed cells are merged, and every
key change opens a new run. -/
theorem runFold_length_blocks {κ σ : Type} [DecidableEq σ] (keyEq : κ → κ → Bool)
    (disp : List Char → κ → Seg) (f : κ → σ)
    (hkeyEq : ∀ a b, keyEq a b = decide (f a = f b)) :
    ∀ (cells : List (Char × κ)) (buf : List Char) (k : κ), buf ≠ [] →
      (runFold keyEq disp cells buf k).length =
        1 + keyChanges (f k :: cells.map (fun q => f q.2)) := by
  intro cells
  induction cells with
  | nil =>
    intro buf k hbuf
    rw [show runFold keyEq disp [] buf k = if buf.isEmpty then [] else [disp buf k] from rfl,
      if_neg (by simpa using hbuf)]
    rfl
  | cons q rest ih =>
    intro buf k hbuf
    obtain ⟨ch, key⟩ := q
    rw [show runFold keyEq disp ((ch, key) :: rest) buf k =
        if ¬buf.isEmpty ∧ ¬(keyEq k key) then
          disp buf k :: runFold keyEq disp rest [ch] key
        else runFold keyEq disp rest (buf ++ [ch]) key from rfl]
    simp only [List.map_cons]
    split
    · next hcond =>
      have hfne : f k ≠ f key := by
        have := hcond.2
        rw [hkeyEq] at this
        simpa using this
      simp only [List.length_cons]
      rw [ih [ch] key (by simp)]
      rw [show keyChanges (f k :: f key :: rest.map (fun q => f q.2)) =
        (if f k = f key then 0 else 1) +
          keyChanges (f key :: rest.map (fun q => f q.2)) from rfl,
        if_neg hfne]
      omega
    · next hcond =>
      have hfeq : f k = f key := by
        rcases not_and_or.mp hcond with hb | hkk
        · exact absurd (by simpa using hbuf) (by simpa using hb)
        · have := not_not.mp hkk
          rw [hkeyEq] at this
          simpa using this
      rw [ih (buf ++ [ch]) key (by simp)]
      rw [show keyChanges (f k :: f key :: rest.map (fun q => f q.2)) =
        (if f k = f key then 0 else 1) +
          keyChanges (f key :: rest.map (fun q => f q.2)) from rfl,
        if_pos hfeq]
      omega

theorem renderRow_length_blocks {κ σ : Type} [DecidableEq σ] (keyEq : κ → κ → Bool)
    (disp : List Char → κ → Seg) (f : κ → σ)
    (hkeyEq : ∀ a b, keyEq a b = decide (f a = f b))
    (cells : List (Char × κ)) (hne : cells ≠ []) :
    (renderRow keyEq disp cells).length =
      1 + keyChanges (cells.map (fun q => f q.2)) := by
  rcases cells with _ | ⟨⟨ch, key⟩, rest⟩
  · exact absurd rfl hne
  · show (runFold keyEq disp rest [ch] key).length = _
    rw [runFold_length_blocks keyEq disp f hkeyEq rest [ch] key (by simp)]
    simp only [List.map_cons]

/-- A 10×4 canvas whose first three Braille cells carry color "A" pixels and
whose last two carry color "B" pixels (one dot each, at the cell's top-left). -/
def brailleExampleCanvas : Canvas :=
  [[⟨true, some "A"⟩, ⟨false, none⟩, ⟨true, some "A"⟩, ⟨false, none⟩, ⟨true, some "A"⟩,
      ⟨false, none⟩, ⟨true, some "B"⟩, ⟨false, none⟩, ⟨true, some "B"⟩, ⟨false, none⟩],
    List.replicate 10 ⟨false, none⟩,
    List.replicate 10 ⟨false, none⟩,
    List.replicate 10 ⟨false, none⟩]

/-- C6: every rendered line partitions its character row left-to-right with
no gaps or overlaps (the concatenation of its run texts is exactly the
row's glyph sequence, each run nonempty) and consecutive cells with
identical style are merged: adjacent Braille runs carry different colors,
and a Block row has exactly one run per maximal block of cells with equal
`fg|bg` style key (so equal-styled neighbors never split and every style
change does); in particular a row whose first three cells resolve to color
"A" and next two to color "B" renders as exactly 2 runs, not 5. -/
theorem claimC6_rendered_runs (pixels : Canvas) (w h cy : Nat) :
    (cy < (h + 3) / 4 →
      ∃ segs, (brailleRenderCanvas pixels w h)[cy]? = some segs ∧
        (segs.map Seg.text).flatten =
          (List.range ((w + 1) / 2)).map (fun cx => brailleCellChar pixels cx cy w h) ∧
        (∀ s ∈ segs, s.text ≠ []) ∧
        adjColorsNe segs = true) ∧
    (cy < (h + 7) / 8 →
      ∃ segs, (blockRenderCanvas pixels w h)[cy]? = some segs ∧
        (segs.map Seg.text).flatten =
          (List.range ((w + 1) / 2)).map (fun cx => (blockCell pixels w h cx cy).1) ∧
        (∀ s ∈ segs, s.text ≠ []) ∧
        segs.length = (if (w + 1) / 2 = 0 then 0 else
          1 + keyChanges ((List.range ((w + 1) / 2)).map
            (fun cx => blockKeyStr (blockCell pixels w h cx cy).2)))) ∧
    brailleRenderCanvas brailleExampleCanvas 10 4 =
      [[{ text := ['⠁', '⠁', '⠁'], color := some "A" },
        { text := ['⠁', '⠁'], color := some "B" }]] := by
  refine ⟨?_, ?_, by decide⟩
  · intro hcy
    refine ⟨renderRow brailleKeyEq brailleDisp
      ((List.range ((w + 1) / 2)).map (fun cx =>
        (brailleCellChar pixels cx cy w h, resolveColorBraille pixels cx cy w h))), ?_, ?_, ?_, ?_⟩
    · unfold brailleRenderCanvas
      rw [List.getElem?_map, List.getElem?_range hcy]
      rfl
    · rw [renderRow_flatten brailleKeyEq brailleDisp (fun _ _ => rfl)]
      simp [List.map_map, Function.comp]
    · exact renderRow_nonempty_texts brailleKeyEq brailleDisp (fun _ _ => rfl) _
    · apply renderRow_braille_adj
      intro key hkey
      simp only [List.map_map, List.mem_map, Function.comp] at hkey
      obtain ⟨cx, _, hkeq⟩ := hkey
      rw [← hkeq]
      exact resolveColorBraille_ne_empty pixels cx cy w h
  · intro hcy
    refine ⟨renderRow blockKeyEq blockDisp
      ((List.range ((w + 1) / 2)).map (fun cx =>
        ((blockCell pixels w h cx cy).1, (blockCell pixels w h cx cy).2))), ?_, ?_, ?_, ?_⟩
    · unfold blockRenderCanvas
      rw [List.getElem?_map, List.getElem?_range hcy]
      rfl
    · rw [renderRow_flatten blockKeyEq blockDisp (fun _ _ => rfl)]
      simp [List.map_map, Function.comp]
    · exact renderRow_nonempty_texts blockKeyEq blockDisp (fun _ _ => rfl) _
    · by_cases hw : (w + 1) / 2 = 0
      · rw [if_pos hw, hw]
        rfl
      · rw [if_neg hw]
        rw [renderRow_length_blocks blockKeyEq blockDisp blockKeyStr blockKeyEq_eq _
          (by simp [List.map_eq_nil_iff, List.range_eq_nil, hw])]
        simp only [List.map_map]
        rfl

/-- Witness for C6: the Braille and Block run properties at row 0 of the
concrete two-color example canvas. -/
theorem claimC6_rendered_runs_witness :
    (0 < (4 + 3) / 4) ∧ (0 < (4 + 7) / 8) ∧
    (∃ segs, (brailleRenderCanvas brailleExampleCanvas 10 4)[0]? = some segs ∧
      (segs.map Seg.text).flatten =
        (List.range ((10 + 1) / 2)).map
          (fun cx => brailleCellChar brailleExampleCanvas cx 0 10 4) ∧
      (∀ s ∈ segs, s.text ≠ []) ∧
      adjColorsNe segs = true) ∧
    (∃ segs, (blockRenderCanvas brailleExampleCanvas 10 4)[0]? = some segs ∧
      (segs.map Seg.text).flatten =
        (List.range ((10 + 1) / 2)).map
          (fun cx => (blockCell brailleExampleCanvas 10 4 cx 0).1) ∧
      (∀ s ∈ segs, s.text ≠ []) ∧
      segs.length = (if (10 + 1) / 2 = 0 then 0 else
        1 + keyChanges ((List.range ((10 + 1) / 2)).map
          (fun cx => blockKeyStr (blockCell brailleExampleCanvas 10 4 cx 0).2)))) :=
  ⟨by norm_num, by norm_num,
    (claimC6_rendered_runs brailleExampleCanvas 10 4 0).1 (by norm_num),
    (claimC6_rendered_runs brailleExampleCanvas 10 4 0).2.1 (by norm_num)⟩

/-!
## ASCII rasterizer (`AsciiRenderer`), glyph selection
-/

/-- `AsciiRenderer.isPixelSet`: `pixels[y]?.[x]?.active ?? false`. -/
def isPixelSet (pixels : Canvas) (x y : Int) : Bool :=
  ((pixAt pixels x y).map Pixel.active).getD false

/-- `AsciiRenderer.getCellPositions`: the offsets (0..2) of the active
pixels of the 1×3 cell at column `x`. -/
def getCellPositions (pixels : Canvas) (x : Int) (baseY : Nat) : List Nat :=
  (List.range 3).filter (fun offset => isPixelSet pixels x ((baseY + offset : Nat) : Int))

/-- `AsciiRenderer.getNeighborPosition`: the mean active offset of the
column, `none` when the column is empty. -/
def getNeighborPosition (pixels : Canvas) (x : Int) (baseY : Nat) : Option ℚ :=
  if (getCellPositions pixels x baseY).length = 0 then none
  else some (mkRat (getCellPositions pixels x baseY).sum
    (getCellPositions pixels x baseY).length)

/-- `AsciiRenderer.selectMultiPixelChar`. -/
def selectMultiPixelChar (hasAnyLeft hasAnyRight : Bool) : Char :=
  if hasAnyLeft || hasAnyRight then '+' else '|'

/-- `AsciiRenderer.selectHorizontalChar` (the `pos = 0` glyph is the
apostrophe, code point 39). -/
def selectHorizontalChar (pos : Nat) : Char :=
  if pos = 0 then Char.ofNat 39 else if pos = 1 then '-' else '_'

/-- `AsciiRenderer.selectDiagonalChar`: the left neighbor is consulted
first; against the left neighbor `pos < leftPos` gives '/', against the
right neighbor `pos > rightPos` gives '/' (the `getD` defaults are never
reached — the guards ensure the option is `some`). -/
def selectDiagonalChar (pos : Nat) (hasAnyLeft hasAnyRight : Bool)
    (leftPos rightPos : Option ℚ) : Option Char :=
  if hasAnyLeft = true ∧ leftPos ≠ none ∧ leftPos ≠ some (pos : ℚ) then
    some (if (pos : ℚ) < leftPos.getD 0 then '/' else '\\')
  else if hasAnyRight = true ∧ rightPos ≠ none ∧ rightPos ≠ some (pos : ℚ) then
    some (if (pos : ℚ) > rightPos.getD 0 then '/' else '\\')
  else none

/-- `AsciiRenderer.selectIsolatedChar`. -/
def selectIsolatedChar (pos : Nat) : Char :=
  if pos = 0 then '"' else if pos = 1 then '+' else '.'

/-- `AsciiRenderer.selectSinglePixelChar`. -/
def selectSinglePixelChar (pos : Nat) (hasSameHorizontal hasAnyLeft hasAnyRight : Bool)
    (leftPos rightPos : Option ℚ) : Char :=
  if hasSameHorizontal then selectHorizontalChar pos
  else
    match selectDiagonalChar pos hasAnyLeft hasAnyRight leftPos rightPos with
    | some d => d
    | none => selectIsolatedChar pos

/-- `AsciiRenderer.selectAsciiChar`. -/
def selectAsciiChar (pixels : Canvas) (x : Int) (baseY : Nat) : Char :=
  if (getCellPositions pixels x baseY).length = 0 then ' '
  else if (getCellPositions pixels x baseY).length ≥ 2 then
    selectMultiPixelChar
      (decide (getNeighborPosition pixels (x - 1) baseY ≠ none))
      (decide (getNeighborPosition pixels (x + 1) baseY ≠ none))
  else
    selectSinglePixelChar ((getCellPositions pixels x baseY).headD 1)
      (isPixelSet pixels (x - 1)
          ((baseY + (getCellPositions pixels x baseY).headD 1 : Nat) : Int) ||
        isPixelSet pixels (x + 1)
          ((baseY + (getCellPositions pixels x baseY).headD 1 : Nat) : Int))
      (decide (getNeighborPosition pixels (x - 1) baseY ≠ none))
      (decide (getNeighborPosition pixels (x + 1) baseY ≠ none))
      (getNeighborPosition pixels (x - 1) baseY)
      (getNeighborPosition pixels (x + 1) baseY)

/-- A 2-column, 3-row canvas: the cell at column 0 has its single active
pixel at offset 0, no neighbor pixel at the same offset, and the right
neighbor column's mean active offset is 2. -/
def asciiCounterCanvas : Canvas :=
  [[⟨true, none⟩, ⟨false, none⟩],
   [⟨false, none⟩, ⟨false, none⟩],
   [⟨false, none⟩, ⟨true, none⟩]]

/-- C4 counterexample: at column 0 all of the claim's premises hold and
`pos = 0` is below the right neighbor's mean offset `2`, so the claim
predicts '/', but the code emits '\\' (for the right neighbor the code
gives '/' only when `pos > rightMean`). -/
theorem claimC4_counterexample :
    getCellPositions asciiCounterCanvas 0 0 = [0] ∧
    isPixelSet asciiCounterCanvas (-1) 0 = false ∧
    isPixelSet asciiCounterCanvas 1 0 = false ∧
    getNeighborPosition asciiCounterCanvas (-1) 0 = none ∧
    getNeighborPosition asciiCounterCanvas 1 0 = some (mkRat 2 1) ∧
    ((0 : ℚ) < mkRat 2 1) ∧
    selectAsciiChar asciiCounterCanvas 0 0 = '\\' ∧
    ('\\' : Char) ≠ '/' := by decide

/-- C4 (amended): in a cell with exactly one active position `pos`, no
neighbor pixel active at the same offset, and a neighbor whose mean active
offset differs from `pos`, the glyph is diagonal, the left neighbor taking
priority; against the left neighbor the glyph is '/' exactly when
`pos < leftMean`, but against the right neighbor it is '/' exactly when
`pos > rightMean` ('\\' otherwise in each case). -/
theorem claimC4_diagonal_amended (pixels : Canvas) (x : Int) (baseY pos : Nat)
    (hpos : getCellPositions pixels x baseY = [pos])
    (hnosame : isPixelSet pixels (x - 1) ((baseY + pos : Nat) : Int) = false ∧
      isPixelSet pixels (x + 1) ((baseY + pos : Nat) : Int) = false) :
    (∀ lm : ℚ, getNeighborPosition pixels (x - 1) baseY = some lm → lm ≠ (pos : ℚ) →
      selectAsciiChar pixels x baseY = if (pos : ℚ) < lm then '/' else '\\') ∧
    ((getNeighborPosition pixels (x - 1) baseY = none ∨
        getNeighborPosition pixels (x - 1) baseY = some (pos : ℚ)) →
      ∀ rm : ℚ, getNeighborPosition pixels (x + 1) baseY = some rm → rm ≠ (pos : ℚ) →
      selectAsciiChar pixels x baseY = if (pos : ℚ) > rm then '/' else '\\') := by
  constructor
  · intro lm hlm hlmne
    unfold selectAsciiChar
    rw [hpos, hlm]
    rw [if_neg (by norm_num), if_neg (by norm_num)]
    simp only [List.headD_cons]
    rw [hnosame.1, hnosame.2]
    show selectSinglePixelChar pos (false || false) _ _ _ _ = _
    unfold selectSinglePixelChar
    rw [if_neg (by norm_num)]
    unfold selectDiagonalChar
    rw [if_pos ⟨by simp, by simp, by simpa using hlmne⟩]
    rfl
  · intro hleft rm hrm hrmne
    unfold selectAsciiChar
    rw [hpos, hrm]
    rw [if_neg (by norm_num), if_neg (by norm_num)]
    simp only [List.headD_cons]
    rw [hnosame.1, hnosame.2]
    show selectSinglePixelChar pos (false || false) _ _ _ _ = _
    unfold selectSinglePixelChar
    rw [if_neg (by norm_num)]
    unfold selectDiagonalChar
    rw [if_neg (by
      rcases hleft with hl | hl
      · rw [hl]
        simp
      · rw [hl]
        simp)]
    rw [if_pos ⟨by simp, by simp, by simpa using hrmne⟩]
    rfl

/-- A canvas whose column-1 cell has one active pixel at offset 0 and whose
left neighbor column has mean active offset 2. -/
def asciiLeftCanvas : Canvas :=
  [[⟨false, none⟩, ⟨true, none⟩],
   [⟨false, none⟩, ⟨false, none⟩],
   [⟨true, none⟩, ⟨false, none⟩]]

/-- Witness for C4: the amended diagonal rule applied once with the left
neighbor deciding ('/' since `0 < 2`) and once with the right neighbor
deciding ('\\' since `0 > 2` fails). -/
theorem claimC4_diagonal_amended_witness :
    getCellPositions asciiLeftCanvas 1 0 = [0] ∧
    getNeighborPosition asciiLeftCanvas 0 0 = some (mkRat 2 1) ∧
    selectAsciiChar asciiLeftCanvas 1 0 =
      (if ((0 : Nat) : ℚ) < mkRat 2 1 then '/' else '\\') ∧
    selectAsciiChar asciiCounterCanvas 0 0 =
      (if ((0 : Nat) : ℚ) > mkRat 2 1 then '/' else '\\') :=
  ⟨by decide, by decide,
    (claimC4_diagonal_amended asciiLeftCanvas 1 0 0 (by decide) (by decide)).1
      (mkRat 2 1) (by decide) (by decide),
    (claimC4_diagonal_amended asciiCounterCanvas 0 0 0 (by decide) (by decide)).2
      (Or.inl (by decide)) (mkRat 2 1) (by decide) (by decide)⟩
